import Mathlib

/-!
# altcat: zero-copy concatenation of files to standard output

A shallow embedding of `src/altcat.c`.  The C functions `remove_append`,
`stdout_append`, `print_usage` and `main` are translated to Lean functions that
thread an explicit kernel state.  The kernel state records the descriptors of
the process, the bytes that reached standard output and standard error, the
value of `errno`, and the sequence of system calls that were made.

Everything the operating system decides (which paths can be opened, what the
files contain, whether a transfer primitive fails or completes short, the
status flags of the inherited descriptors) is a field of the environment `Env`,
so every statement below is quantified over all such behaviours.
-/

namespace Altcat

/-! ## Constants of the system headers (Linux, glibc) -/

abbrev Byte := UInt8

def STDOUT_FILENO : Int := 1
def O_RDONLY : Int := 0
def O_APPEND : Int := 1024
def ENOENT : Int := 2
def EBADF : Int := 9
def EINVAL : Int := 22
def EXIT_SUCCESS : Int := 0
def EXIT_FAILURE : Int := 1

/-! ## Bitwise operators of the C type `int` (32 bits, two's complement) -/

/-- The bit pattern of an `int`, as a natural number below `2^32`. -/
def int_bits (x : Int) : Nat := (x % 4294967296).toNat

/-- The `int` that a 32-bit pattern stands for. -/
def int_of_bits (n : Nat) : Int :=
  if n < 2147483648 then (n : Int) else (n : Int) - 4294967296

/-- C `a & b` on `int`. -/
def int_and (a b : Int) : Int := int_of_bits (Nat.land (int_bits a) (int_bits b))

/-- C `a ^ b` on `int`. -/
def int_xor (a b : Int) : Int := int_of_bits (Nat.xor (int_bits a) (int_bits b))

/-- C `~a` on `int`. -/
def int_not (a : Int) : Int := int_of_bits (4294967295 - int_bits a)

/-! ## The kernel model -/

/-- Result of a transfer primitive: it returned -1 and set `errno`, or it
returned the number of bytes it moved. -/
inductive Res where
  | failed (errno : Int)
  | moved (n : Nat)
  deriving DecidableEq, Repr

/-- The value a transfer primitive returns to the program. -/
def Res.ret : Res → Int
  | .failed _ => -1
  | .moved n => (n : Int)

/-- A system call made by the process, with its arguments and its result. -/
inductive Event where
  | getfl (fd : Int) (ret : Int)
  | setfl (fd : Int) (arg : Int) (ret : Int)
  | isatty (fd : Int) (ret : Int)
  | openRd (path : String) (ret : Int)
  | fstat (fd : Int) (ret : Int) (size : Nat)
  | splice (fdIn fdOut : Int) (len : Nat) (res : Res)
  | sendfile (fdOut fdIn : Int) (count : Nat) (res : Res)
  | close (fd : Int) (ret : Int)
  deriving DecidableEq, Repr

/-- A descriptor the process inherits at start-up (standard input, output,
error, ...): its file status flags, whether it is a terminal, and the error
with which `F_SETFL` on it fails, if it does. -/
structure Desc where
  flags : Nat
  tty : Bool
  setflErr : Option PNat
  deriving DecidableEq

/-- An open file description created by `open(path, O_RDONLY)` on a regular
file: the bytes of the file and the current file offset. -/
structure OpenFile where
  path : String
  data : List Byte
  pos : Nat
  deriving DecidableEq

/-- What a transfer primitive does when it is called on an input: it fails
with an error code, or it moves bytes, at most `limit` of them in this call. -/
inductive Xfer where
  | fail (errno : PNat)
  | move (limit : Nat)
  deriving DecidableEq

/-- The environment of one run. -/
structure Env where
  /-- Result of `open(path, O_RDONLY)`: an error code, or the file contents. -/
  fs : String → Except PNat (List Byte)
  /-- Behaviour of `splice` from the file at this path to standard output. -/
  spliceOutcome : String → Xfer
  /-- Behaviour of `sendfile` from the file at this path to standard output. -/
  sendfileOutcome : String → Xfer
  /-- Descriptors open at start-up. -/
  std : List (Int × Desc)

/-- The state of the process and of the kernel objects it touches. -/
structure Kernel where
  env : Env
  /-- Inherited descriptors, with their current status flags. -/
  std : List (Int × Desc)
  /-- Input descriptors opened by this process and not yet closed. -/
  fdt : List (Int × OpenFile)
  errno : Int
  /-- Bytes that reached standard output, in order. -/
  out : List Byte
  /-- Text that reached standard error, in order. -/
  err : String
  /-- System calls made so far, in order. -/
  log : List Event

/-- The state in which `main` starts. -/
def boot (env : Env) : Kernel :=
  { env := env, std := env.std, fdt := [], errno := 0, out := [], err := "", log := [] }

/-- Look a descriptor up in a descriptor table. -/
def assocGet {α : Type} (fd : Int) : List (Int × α) → Option α
  | [] => none
  | (k, v) :: t => if k = fd then some v else assocGet fd t

/-- Replace the entry of a descriptor in a descriptor table. -/
def assocSet {α : Type} (fd : Int) (v : α) : List (Int × α) → List (Int × α)
  | [] => []
  | (k, w) :: t => if k = fd then (k, v) :: t else (k, w) :: assocSet fd v t

/-- Remove the entry of a descriptor from a descriptor table. -/
def assocDel {α : Type} (fd : Int) : List (Int × α) → List (Int × α)
  | [] => []
  | (k, w) :: t => if k = fd then t else (k, w) :: assocDel fd t

/-- The lowest non-negative descriptor number that is not in use. -/
def lowestFree (used : List Int) : Int :=
  match (List.range (used.length + 1)).find? (fun (n : Nat) => decide ((n : Int) ∉ used)) with
  | some n => (n : Int)
  | none => used.foldr max 0 + 1

/-- Descriptor numbers in use in a state. -/
def Kernel.used (k : Kernel) : List Int :=
  k.std.map Prod.fst ++ k.fdt.map Prod.fst

/-- Append an event to the log. -/
def Kernel.record (k : Kernel) (e : Event) : Kernel :=
  { k with log := k.log ++ [e] }

/-- The call `fcntl(fd, F_GETFL)`. -/
def sys_fcntl_getfl (k : Kernel) (fd : Int) : Int × Kernel :=
  match assocGet fd k.std with
  | some d => ((d.flags : Int), k.record (.getfl fd (d.flags : Int)))
  | none => (-1, { k with errno := EBADF, log := k.log ++ [.getfl fd (-1)] })

/-- The call `fcntl(fd, F_SETFL, arg)`.  The program only ever passes the
current flags with the `O_APPEND` bit flipped, so the new flags are `arg`. -/
def sys_fcntl_setfl (k : Kernel) (fd : Int) (arg : Int) : Int × Kernel :=
  match assocGet fd k.std with
  | some d =>
    match d.setflErr with
    | some e => (-1, { k with errno := ((e : Nat) : Int), log := k.log ++ [.setfl fd arg (-1)] })
    | none =>
      (0, { k with std := assocSet fd { d with flags := arg.toNat } k.std,
                   log := k.log ++ [.setfl fd arg 0] })
  | none => (-1, { k with errno := EBADF, log := k.log ++ [.setfl fd arg (-1)] })

/-- The call `isatty(fd)`: 1 for a terminal, 0 otherwise. -/
def sys_isatty (k : Kernel) (fd : Int) : Int × Kernel :=
  match assocGet fd k.std with
  | some d => if d.tty then (1, k.record (.isatty fd 1)) else (0, k.record (.isatty fd 0))
  | none => (0, { k with errno := EBADF, log := k.log ++ [.isatty fd 0] })

/-- The call `open(path, O_RDONLY)`. -/
def sys_open (k : Kernel) (path : String) : Int × Kernel :=
  match k.env.fs path with
  | .error e => (-1, { k with errno := ((e : Nat) : Int), log := k.log ++ [.openRd path (-1)] })
  | .ok data =>
    let fd := lowestFree k.used
    (fd, { k with fdt := k.fdt ++ [(fd, { path := path, data := data, pos := 0 })],
                  log := k.log ++ [.openRd path fd] })

/-- The call `fstat(fd, &st)`: the return value and `st.st_size`.  When the
call fails the buffer is not written; the size is then reported as 0. -/
def sys_fstat (k : Kernel) (fd : Int) : (Int × Nat) × Kernel :=
  match assocGet fd k.fdt with
  | some f => ((0, f.data.length), k.record (.fstat fd 0 f.data.length))
  | none => ((-1, 0), { k with errno := EBADF, log := k.log ++ [.fstat fd (-1) 0] })

/-- Number of bytes a transfer primitive moves: no more than its limit for
this call, no more than requested, no more than the file still holds. -/
def moved (limit len : Nat) (f : OpenFile) : Nat :=
  min limit (min len (f.data.length - f.pos))

/-- The error with which every transfer towards standard output fails, if
any: `EBADF` when standard output is not open, `EINVAL` when it is in append
mode (neither `splice` nor `sendfile` accepts such a target). -/
def outGate (std : List (Int × Desc)) : Option Int :=
  match assocGet STDOUT_FILENO std with
  | none => some EBADF
  | some d => if int_and (d.flags : Int) O_APPEND ≠ 0 then some EINVAL else none

/-- What a transfer primitive called on the open file `f` towards `fdOut`
does in state `k`, given what the environment says about the file. -/
def Kernel.transfer (k : Kernel) (x : Xfer) (fdOut : Int) (len : Nat) (f : OpenFile) : Res :=
  if fdOut ≠ STDOUT_FILENO then .failed EBADF
  else
    match outGate k.std with
    | some e => .failed e
    | none =>
      match x with
      | .fail e => .failed ((e : Nat) : Int)
      | .move limit => .moved (moved limit len f)

/-- The state after a transfer primitive called on descriptor `fdIn`, an
open file `f`, ended with result `r`. -/
def Kernel.afterTransfer (k : Kernel) (fdIn : Int) (f : OpenFile) (r : Res) (e : Event) :
    Kernel :=
  match r with
  | .failed errno => { k with errno := errno, log := k.log ++ [e] }
  | .moved n =>
    { k with out := k.out ++ (f.data.drop f.pos).take n,
             fdt := assocSet fdIn { f with pos := f.pos + n } k.fdt,
             log := k.log ++ [e] }

/-- The call `splice(fdIn, NULL, fdOut, NULL, len, 0)`. -/
def sys_splice (k : Kernel) (fdIn fdOut : Int) (len : Nat) : Int × Kernel :=
  match assocGet fdIn k.fdt with
  | none =>
    (-1, { k with errno := EBADF, log := k.log ++ [.splice fdIn fdOut len (.failed EBADF)] })
  | some f =>
    let r := k.transfer (k.env.spliceOutcome f.path) fdOut len f
    (r.ret, k.afterTransfer fdIn f r (.splice fdIn fdOut len r))

/-- The call `sendfile(fdOut, fdIn, NULL, count)`. -/
def sys_sendfile (k : Kernel) (fdOut fdIn : Int) (count : Nat) : Int × Kernel :=
  match assocGet fdIn k.fdt with
  | none =>
    (-1, { k with errno := EBADF, log := k.log ++ [.sendfile fdOut fdIn count (.failed EBADF)] })
  | some f =>
    let r := k.transfer (k.env.sendfileOutcome f.path) fdOut count f
    (r.ret, k.afterTransfer fdIn f r (.sendfile fdOut fdIn count r))

/-- The call `close(fd)` on an input descriptor. -/
def sys_close (k : Kernel) (fd : Int) : Int × Kernel :=
  match assocGet fd k.fdt with
  | some _ => (0, { k with fdt := assocDel fd k.fdt, log := k.log ++ [.close fd 0] })
  | none => (-1, { k with errno := EBADF, log := k.log ++ [.close fd (-1)] })

/-- The bytes of a text, as `printf` sends them. -/
def textBytes (s : String) : List Byte := s.toUTF8.data.toList

/-- Formatted output on `stdout` (`printf`). -/
def printf_stdout (k : Kernel) (s : String) : Kernel :=
  { k with out := k.out ++ textBytes s }

/-- Formatted output on `stderr` (`fprintf(stderr, ...)`). -/
def fprintf_stderr (k : Kernel) (s : String) : Kernel :=
  { k with err := k.err ++ s }

/-! ## The program -/

/-- `remove_append` (altcat.c, lines 17-22). -/
def remove_append (fd : Int) (k : Kernel) : Kernel :=
  let r := sys_fcntl_getfl k fd
  let flags := r.1
  if flags ≥ 0 then
    (sys_fcntl_setfl r.2 fd (int_xor flags O_APPEND)).2
  else
    r.2

/-- `stdout_append` (altcat.c, lines 27-29): the `int` is converted to
`bool`, so the result is true when the value is non-zero. -/
def stdout_append (k : Kernel) : Bool × Kernel :=
  let r := sys_fcntl_getfl k STDOUT_FILENO
  (decide (int_and r.1 O_APPEND ≠ 0), r.2)

/-- `print_usage` (altcat.c, lines 34-36). -/
def print_usage (program : String) (k : Kernel) : Kernel :=
  printf_stdout k (program ++ " FILE [FILE...]\n")

/-- The first loop of `main` (lines 79-91).  The result is `none` when
`main` returns `EXIT_FAILURE` from inside the loop, and the array `fds`
otherwise. -/
def main_open_loop : List String → Kernel → List Int → Option (List Int) × Kernel
  | [], k, fds => (some fds, k)
  | in_filename :: rest, k, fds =>
    let r := sys_open k in_filename
    if r.1 < 0 then
      if r.2.errno = ENOENT then
        (none, fprintf_stderr r.2 ("Unable to open " ++ in_filename ++ ". File does not exist.\n"))
      else
        (none, fprintf_stderr r.2 ("Unable to open " ++ in_filename ++ ".\n"))
    else
      main_open_loop rest r.2 (fds ++ [r.1])

/-- The body of the second loop of `main` (lines 102-125) for the
descriptor `fd`.  The result is `some errno` when `main` returns from inside
the body. -/
def main_copy_body (fd : Int) (k : Kernel) : Option Int × Kernel :=
  let st := sys_fstat k fd
  let st_size := st.1.2
  let s := sys_splice st.2 fd STDOUT_FILENO st_size
  let t := if s.1 = -1 ∧ s.2.errno = EINVAL then
      sys_sendfile s.2 STDOUT_FILENO fd st_size
    else s
  let bytes := t.1
  if bytes < 0 then
    (some t.2.errno, t.2)
  else
    (none, (sys_close t.2 fd).2)

/-- The second loop of `main` (lines 97-126). -/
def main_copy_loop : List Int → Kernel → Option Int × Kernel
  | [], k => (none, k)
  | fd :: rest, k =>
    match main_copy_body fd k with
    | (some status, k1) => (some status, k1)
    | (none, k1) => main_copy_loop rest k1

/-- The first conditional of `main` (lines 49-61): `isatty` is only called
when `stdout_append()` is true, and `remove_append` only when both are. -/
def main_normalize (k : Kernel) : Kernel :=
  let a := stdout_append k
  if a.1 then
    let t := sys_isatty a.2 STDOUT_FILENO
    if t.1 ≠ 0 then remove_append STDOUT_FILENO t.2 else t.2
  else a.2

/-- `main` (altcat.c, lines 38-129), started in state `k`.  `argv` holds
the program name followed by the file arguments; `argc` is its length.  With
`argc = 0` the C library prints a null `argv[0]` as `(null)`. -/
def main_from (argv : List String) (k : Kernel) : Int × Kernel :=
  if argv.length < 2 then
    let k1 := fprintf_stderr k "Invalid arguments.\n"
    let k2 := print_usage (argv.headD "(null)") k1
    (EXIT_FAILURE, k2)
  else
    let k1 := main_normalize k
    let b := stdout_append k1
    if b.1 then
      (EXIT_FAILURE, fprintf_stderr b.2 "Unable to append to files.\n")
    else
      match main_open_loop argv.tail b.2 [] with
      | (none, k2) => (EXIT_FAILURE, k2)
      | (some fds, k2) =>
        match main_copy_loop fds k2 with
        | (some status, k3) => (status, k3)
        | (none, k3) => (EXIT_SUCCESS, k3)

/-- A run of the program in an environment. -/
def main (argv : List String) (env : Env) : Int × Kernel :=
  main_from argv (boot env)

/-! ## Sample environments -/

/-- Standard descriptors of a process whose output is a pipe or a file
opened for writing, not for appending. -/
def plainStd : List (Int × Desc) :=
  [(0, { flags := 0, tty := false, setflErr := none }),
   (1, { flags := 1, tty := false, setflErr := none }),
   (2, { flags := 1, tty := false, setflErr := none })]

/-- A file system with two files, `a` holding `abc` and `b` holding `de`;
every other path does not exist. -/
def sampleFs (path : String) : Except PNat (List Byte) :=
  if path = "a" then .ok [97, 98, 99]
  else if path = "b" then .ok [100, 101]
  else .error 2

/-- Both primitives move everything that is requested. -/
def envFull : Env :=
  { fs := sampleFs, spliceOutcome := fun _ => .move 1000000,
    sendfileOutcome := fun _ => .move 1000000, std := plainStd }

/-- Standard output is a regular file: `splice` fails with `EINVAL`. -/
def envRegular : Env :=
  { fs := sampleFs, spliceOutcome := fun _ => .fail 22,
    sendfileOutcome := fun _ => .move 1000000, std := plainStd }

/-- The first call of `splice` on `a` moves one byte only. -/
def envShort : Env :=
  { fs := sampleFs, spliceOutcome := fun p => if p = "a" then .move 1 else .move 1000000,
    sendfileOutcome := fun _ => .move 1000000, std := plainStd }

/-! ## What the environment says about a path -/

/-- The path can be opened for reading. -/
def Env.opens (env : Env) (p : String) : Bool :=
  match env.fs p with
  | .ok _ => true
  | .error _ => false

/-- The bytes of the file at a path (empty when it cannot be opened). -/
def Env.contents (env : Env) (p : String) : List Byte :=
  match env.fs p with
  | .ok data => data
  | .error _ => []

/-- Result of `splice` on a freshly positioned open file when standard output
accepts transfers. -/
def Env.spliceRes (env : Env) (f : OpenFile) : Res :=
  match env.spliceOutcome f.path with
  | .fail e => .failed ((e : Nat) : Int)
  | .move limit => .moved (moved limit f.data.length f)

/-- Result of `sendfile` on an open file when standard output accepts
transfers. -/
def Env.sendfileRes (env : Env) (f : OpenFile) : Res :=
  match env.sendfileOutcome f.path with
  | .fail e => .failed ((e : Nat) : Int)
  | .move limit => .moved (moved limit f.data.length f)

/-- Result that decides how the loop body ends: that of `splice`, or that of
`sendfile` when `splice` failed with `EINVAL`. -/
def Env.finalRes (env : Env) (f : OpenFile) : Res :=
  if env.spliceRes f = .failed EINVAL then env.sendfileRes f else env.spliceRes f

/-- System calls of one pass through the loop body. -/
def segEvents (env : Env) (fd : Int) (f : OpenFile) : List Event :=
  [.fstat fd 0 f.data.length, .splice fd STDOUT_FILENO f.data.length (env.spliceRes f)] ++
  (if env.spliceRes f = .failed EINVAL then
    [.sendfile STDOUT_FILENO fd f.data.length (env.sendfileRes f)] else []) ++
  (match env.finalRes f with
   | .moved _ => [.close fd 0]
   | .failed _ => [])

/-- Bytes one pass through the loop body delivers. -/
def segBytes (env : Env) (f : OpenFile) : List Byte :=
  match env.finalRes f with
  | .moved n => (f.data.drop f.pos).take n
  | .failed _ => []

/-- System calls of the second loop on a descriptor table. -/
def runLog (env : Env) : List (Int × OpenFile) → List Event
  | [] => []
  | (fd, f) :: t =>
    segEvents env fd f ++
      (match env.finalRes f with
       | .moved _ => runLog env t
       | .failed _ => [])

/-- Bytes the second loop delivers. -/
def runOut (env : Env) : List (Int × OpenFile) → List Byte
  | [] => []
  | (_, f) :: t =>
    segBytes env f ++
      (match env.finalRes f with
       | .moved _ => runOut env t
       | .failed _ => [])

/-- Status with which the second loop leaves `main`, if it does. -/
def runRet (env : Env) : List (Int × OpenFile) → Option Int
  | [] => none
  | (_, f) :: t =>
    match env.finalRes f with
    | .moved _ => runRet env t
    | .failed e => some e

/-- Descriptors still open after the second loop. -/
def runLeft (env : Env) : List (Int × OpenFile) → List (Int × OpenFile)
  | [] => []
  | (fd, f) :: t =>
    match env.finalRes f with
    | .moved _ => runLeft env t
    | .failed _ => (fd, f) :: t

/-- Entries the first loop adds to the descriptor table. -/
def openedEntries (env : Env) : List Int → List String → List (Int × OpenFile)
  | _, [] => []
  | used, p :: ps =>
    match env.fs p with
    | .error _ => []
    | .ok data =>
      (lowestFree used, { path := p, data := data, pos := 0 }) ::
        openedEntries env (used ++ [lowestFree used]) ps

/-- System calls of the first loop. -/
def openLog (env : Env) : List Int → List String → List Event
  | _, [] => []
  | used, p :: ps =>
    match env.fs p with
    | .error _ => [.openRd p (-1)]
    | .ok _ => .openRd p (lowestFree used) :: openLog env (used ++ [lowestFree used]) ps

/-- The state in which the first loop of `main` starts, when it is reached. -/
def preOpen (env : Env) : Kernel :=
  (stdout_append (main_normalize (boot env))).2

/-- The second test of `stdout_append()` in `main` (line 68). -/
def stillAppend (env : Env) : Bool :=
  (stdout_append (main_normalize (boot env))).1

/-! ## Classification of system calls -/

/-- Calls of the output-mode stage: `fcntl` and `isatty`. -/
def Event.isSetup : Event → Bool
  | .getfl _ _ => true
  | .setfl _ _ _ => true
  | .isatty _ _ => true
  | _ => false

/-- Calls of `open`. -/
def Event.isOpen : Event → Bool
  | .openRd _ _ => true
  | _ => false

/-- Calls of a transfer primitive, `splice` or `sendfile`. -/
def Event.isTransfer : Event → Bool
  | .splice _ _ _ _ => true
  | .sendfile _ _ _ _ => true
  | _ => false

/-- Calls of `close`. -/
def Event.isClose : Event → Bool
  | .close _ _ => true
  | _ => false

/-- Calls of `fcntl(fd, F_SETFL, ...)`. -/
def Event.isSetfl : Event → Bool
  | .setfl _ _ _ => true
  | _ => false

/-- The path an `open` call was given. -/
def Event.openPath : Event → Option String
  | .openRd p _ => some p
  | _ => none

/-- The descriptor a successful `open` call returned. -/
def Event.openedFd : Event → Option Int
  | .openRd _ ret => if 0 ≤ ret then some ret else none
  | _ => none

/-- The input descriptor of a `splice` call. -/
def Event.spliceFd : Event → Option Int
  | .splice fdIn _ _ _ => some fdIn
  | _ => none

/-- The input descriptor of a `sendfile` call. -/
def Event.sendfileFd : Event → Option Int
  | .sendfile _ fdIn _ _ => some fdIn
  | _ => none

/-- The descriptor of a `close` call. -/
def Event.closeFd : Event → Option Int
  | .close fd _ => some fd
  | _ => none

/-- The input descriptor of a transfer call that moved bytes. -/
def Event.movedFd : Event → Option Int
  | .splice fdIn _ _ (.moved _) => some fdIn
  | .sendfile _ fdIn _ (.moved _) => some fdIn
  | _ => none

/-- The call passes the input descriptor `fd` to `fstat`, `splice`,
`sendfile` or `close`. -/
def Event.usesFd (fd : Int) : Event → Bool
  | .fstat d _ _ => decide (d = fd)
  | .splice d _ _ _ => decide (d = fd)
  | .sendfile _ d _ _ => decide (d = fd)
  | .close d _ => decide (d = fd)
  | _ => false

/-- Paths passed to `open`, in order. -/
def opensOf (log : List Event) : List String := log.filterMap Event.openPath

/-- Descriptors returned by successful `open` calls, in order. -/
def openedFds (log : List Event) : List Int := log.filterMap Event.openedFd

/-- Input descriptors passed to `splice`, in order. -/
def spliceFds (log : List Event) : List Int := log.filterMap Event.spliceFd

/-- Input descriptors passed to `sendfile`, in order. -/
def sendfileFds (log : List Event) : List Int := log.filterMap Event.sendfileFd

/-- Descriptors passed to `close`, in order. -/
def closeFds (log : List Event) : List Int := log.filterMap Event.closeFd

/-- The next call is `close(fd)`. -/
def closesNext (fd : Int) : List Event → Bool
  | .close c _ :: _ => decide (c = fd)
  | _ => false

/-- Every transfer call that moved bytes is directly followed by the `close`
of its input descriptor. -/
def closedAtOnce : List Event → Bool
  | [] => true
  | e :: t =>
    (match e.movedFd with
     | some fd => closesNext fd t
     | none => true) && closedAtOnce t

/-- No descriptor is passed to `fstat`, `splice`, `sendfile` or `close` after
it was closed. -/
def noUseAfterClose : List Event → Bool
  | [] => true
  | e :: t =>
    (match e.closeFd with
     | some fd => t.all (fun x => !(x.usesFd fd))
     | none => true) && noUseAfterClose t

/-- Number of inputs the second loop starts to process. -/
def runCount (env : Env) : List (Int × OpenFile) → Nat
  | [] => 0
  | (_, f) :: t =>
    match env.finalRes f with
    | .moved _ => runCount env t + 1
    | .failed _ => 1

/-- Number of inputs the second loop closes. -/
def doneCount (env : Env) : List (Int × OpenFile) → Nat
  | [] => 0
  | (_, f) :: t =>
    match env.finalRes f with
    | .moved _ => doneCount env t + 1
    | .failed _ => 0

/-- The open file description `open` creates for a path. -/
def Env.fileOf (env : Env) (p : String) : OpenFile :=
  { path := p, data := env.contents p, pos := 0 }

/-- Size of the file at a path. -/
def Env.size (env : Env) (p : String) : Nat := (env.contents p).length

/-- The transfer of the file at a path does not fail: `splice` moves bytes,
or `splice` fails with `EINVAL` and `sendfile` moves bytes. -/
def Env.transfers (env : Env) (p : String) : Bool :=
  match env.spliceOutcome p with
  | .move _ => true
  | .fail e =>
    decide (((e : Nat) : Int) = EINVAL) &&
      (match env.sendfileOutcome p with
       | .move _ => true
       | .fail _ => false)

/-- Bytes of the file at a path that its transfer delivers. -/
def Env.delivered (env : Env) (p : String) : List Byte :=
  segBytes env (env.fileOf p)

/-- Standard output is a terminal left in append mode; `F_SETFL` works. -/
def ttyAppendStd : List (Int × Desc) :=
  [(0, { flags := 2, tty := true, setflErr := none }),
   (1, { flags := 1026, tty := true, setflErr := none }),
   (2, { flags := 1026, tty := true, setflErr := none })]

/-- Standard output is a file opened for appending. -/
def appendStd : List (Int × Desc) :=
  [(0, { flags := 0, tty := false, setflErr := none }),
   (1, { flags := 1025, tty := false, setflErr := none }),
   (2, { flags := 1, tty := false, setflErr := none })]

/-- Standard output was closed before the program started. -/
def closedStd : List (Int × Desc) :=
  [(0, { flags := 0, tty := false, setflErr := none }),
   (2, { flags := 1, tty := false, setflErr := none })]

/-- Output appended to a file. -/
def envAppend : Env := { envFull with std := appendStd }

/-- Output on a terminal in append mode. -/
def envTty : Env := { envFull with std := ttyAppendStd }

/-- Standard output closed. -/
def envClosed : Env := { envFull with std := closedStd }

/-- Both primitives fail on `b`: `splice` with `EINVAL`, `sendfile` with
`EIO` (5). -/
def envFail : Env :=
  { fs := sampleFs,
    spliceOutcome := fun p => if p = "b" then .fail 22 else .move 1000000,
    sendfileOutcome := fun p => if p = "b" then .fail 5 else .move 1000000,
    std := plainStd }

theorem natCast_ne_neg_one (n : Nat) : ((n : Int) = -1) = False := by
  simp

theorem natCast_not_neg (n : Nat) : ((n : Int) < 0) = False :=
  eq_false (by omega)

theorem foldr_max_nonneg (l : List Int) : 0 ≤ l.foldr max 0 := by
  induction l with
  | nil => simp
  | cons a t ih => simp only [List.foldr_cons]; exact le_trans ih (le_max_right _ _)

theorem le_foldr_max (l : List Int) : ∀ x ∈ l, x ≤ l.foldr max 0 := by
  induction l with
  | nil => simp
  | cons a t ih =>
    intro x hx
    simp only [List.foldr_cons]
    rcases List.mem_cons.mp hx with h | h
    · subst h; exact le_max_left _ _
    · exact le_trans (ih x h) (le_max_right _ _)

theorem lowestFree_nonneg (used : List Int) : 0 ≤ lowestFree used := by
  unfold lowestFree
  split
  · omega
  · have := foldr_max_nonneg used
    omega

theorem lowestFree_not_mem (used : List Int) : lowestFree used ∉ used := by
  unfold lowestFree
  split
  · rename_i n h
    have := List.find?_some h
    simpa using this
  · intro hmem
    have := le_foldr_max used _ hmem
    omega

theorem lowestFree_not_neg (used : List Int) : (lowestFree used < 0) = False :=
  eq_false (by have := lowestFree_nonneg used; omega)

theorem copy_body_sim (k : Kernel) (fd : Int) (f : OpenFile) (t : List (Int × OpenFile))
    (hfdt : k.fdt = (fd, f) :: t) (hgate : outGate k.std = none) :
    (main_copy_body fd k).2.log = k.log ++ segEvents k.env fd f ∧
    (main_copy_body fd k).2.out = k.out ++ segBytes k.env f ∧
    (main_copy_body fd k).2.std = k.std ∧
    (main_copy_body fd k).2.env = k.env ∧
    (main_copy_body fd k).2.err = k.err ∧
    (match k.env.finalRes f with
      | .moved _ => (main_copy_body fd k).1 = none ∧ (main_copy_body fd k).2.fdt = t
      | .failed e => (main_copy_body fd k).1 = some e ∧ (main_copy_body fd k).2.fdt = k.fdt) := by
  unfold main_copy_body
  simp only [sys_fstat, hfdt, assocGet, if_true, Kernel.record, sys_splice]
  cases hs : k.env.spliceOutcome f.path with
  | move l =>
    simp [Kernel.transfer, hgate, hs, Kernel.afterTransfer, Res.ret,
      natCast_ne_neg_one, natCast_not_neg, sys_close, assocGet, assocSet, assocDel, segEvents, segBytes,
      Env.finalRes, Env.spliceRes]
  | fail e =>
    by_cases he : ((e : Nat) : Int) = EINVAL
    · cases hf : k.env.sendfileOutcome f.path with
      | move l =>
        simp [Kernel.transfer, hgate, hs, hf, he, Kernel.afterTransfer, Res.ret,
          natCast_ne_neg_one, natCast_not_neg, sys_close, assocGet, assocSet, assocDel, segEvents, segBytes,
          Env.finalRes, Env.spliceRes, Env.sendfileRes, sys_sendfile, hfdt]
      | fail e2 =>
        simp [Kernel.transfer, hgate, hs, hf, he, Kernel.afterTransfer, Res.ret,
          natCast_ne_neg_one, natCast_not_neg, sys_close, assocGet, assocSet, assocDel, segEvents, segBytes,
          Env.finalRes, Env.spliceRes, Env.sendfileRes, sys_sendfile, hfdt]
    · simp [Kernel.transfer, hgate, hs, he, Kernel.afterTransfer, Res.ret,
          natCast_ne_neg_one, natCast_not_neg, sys_close, assocGet, assocSet, assocDel, segEvents, segBytes,
          Env.finalRes, Env.spliceRes, Env.sendfileRes, sys_sendfile, hfdt]

theorem copy_loop_sim : ∀ (es : List (Int × OpenFile)) (k : Kernel),
    k.fdt = es → outGate k.std = none →
    (main_copy_loop (es.map Prod.fst) k).1 = runRet k.env es ∧
    (main_copy_loop (es.map Prod.fst) k).2.log = k.log ++ runLog k.env es ∧
    (main_copy_loop (es.map Prod.fst) k).2.out = k.out ++ runOut k.env es ∧
    (main_copy_loop (es.map Prod.fst) k).2.fdt = runLeft k.env es ∧
    (main_copy_loop (es.map Prod.fst) k).2.std = k.std ∧
    (main_copy_loop (es.map Prod.fst) k).2.env = k.env ∧
    (main_copy_loop (es.map Prod.fst) k).2.err = k.err := by
  intro es
  induction es with
  | nil =>
    intro k hfdt _
    simp [main_copy_loop, runRet, runLog, runOut, runLeft, hfdt]
  | cons e t ih =>
    obtain ⟨fd, f⟩ := e
    intro k hfdt hgate
    have hb := copy_body_sim k fd f t hfdt hgate
    simp only [List.map_cons, main_copy_loop, runRet, runLog, runOut, runLeft]
    rcases hbody : main_copy_body fd k with ⟨o, k1⟩
    rw [hbody] at hb
    obtain ⟨hlog, hout, hstd, henv, herr, hres⟩ := hb
    simp only at hlog hout hstd henv herr hres
    cases hfin : k.env.finalRes f with
    | moved n =>
      rw [hfin] at hres
      obtain ⟨ho, hk1⟩ := hres
      subst ho
      have ih1 := ih k1 hk1 (by rw [hstd]; exact hgate)
      simp only [ih1, hlog, hout, hstd, henv, herr, List.append_assoc, and_self]
    | failed e =>
      rw [hfin] at hres
      obtain ⟨ho, hk1⟩ := hres
      subst ho
      simp [hlog, hout, hstd, henv, herr, hk1, hfdt]

theorem open_loop_sim : ∀ (ps : List String) (k : Kernel) (acc : List Int),
    (main_open_loop ps k acc).1 =
      (if ps.all k.env.opens then some (acc ++ (openedEntries k.env k.used ps).map Prod.fst)
       else none) ∧
    (main_open_loop ps k acc).2.log = k.log ++ openLog k.env k.used ps ∧
    (main_open_loop ps k acc).2.fdt = k.fdt ++ openedEntries k.env k.used ps ∧
    (main_open_loop ps k acc).2.out = k.out ∧
    (main_open_loop ps k acc).2.std = k.std ∧
    (main_open_loop ps k acc).2.env = k.env := by
  intro ps
  induction ps with
  | nil =>
    intro k acc
    simp [main_open_loop, openedEntries, openLog]
  | cons p ps ih =>
    intro k acc
    cases hp : k.env.fs p with
    | error e =>
      simp only [main_open_loop, sys_open, hp, openedEntries, openLog, List.all_cons, Env.opens]
      by_cases hen : ((e : Nat) : Int) = ENOENT <;> simp [hen, fprintf_stderr]
    | ok data =>
      have ih1 := ih { k with fdt := k.fdt ++ [(lowestFree k.used, { path := p, data := data, pos := 0 })],
                              log := k.log ++ [.openRd p (lowestFree k.used)] } (acc ++ [lowestFree k.used])
      simp only [main_open_loop, sys_open, hp, openedEntries, openLog, List.all_cons, Env.opens]
      simp only [lowestFree_not_neg, if_false]
      simp only [Kernel.used, List.map_append, List.map_cons, List.map_nil] at ih1
      simp only [Kernel.used, ih1, List.append_assoc, List.singleton_append, List.map_cons,
        Bool.true_and, and_self]

theorem getfl_fields (k : Kernel) (fd : Int) :
    (sys_fcntl_getfl k fd).2.std = k.std ∧ (sys_fcntl_getfl k fd).2.fdt = k.fdt ∧
    (sys_fcntl_getfl k fd).2.out = k.out ∧ (sys_fcntl_getfl k fd).2.err = k.err ∧
    (sys_fcntl_getfl k fd).2.env = k.env ∧
    (sys_fcntl_getfl k fd).2.log = k.log ++ [.getfl fd (sys_fcntl_getfl k fd).1] := by
  unfold sys_fcntl_getfl
  cases assocGet fd k.std <;> simp [Kernel.record]

theorem int_and_neg_one_append : (int_and (-1) O_APPEND = 0) = False :=
  eq_false (by decide)

theorem isatty_fields (k : Kernel) (fd : Int) :
    (sys_isatty k fd).2.std = k.std ∧ (sys_isatty k fd).2.fdt = k.fdt ∧
    (sys_isatty k fd).2.out = k.out ∧ (sys_isatty k fd).2.err = k.err ∧
    (sys_isatty k fd).2.env = k.env ∧
    (sys_isatty k fd).2.log = k.log ++ [.isatty fd (sys_isatty k fd).1] := by
  unfold sys_isatty
  cases h : assocGet fd k.std with
  | none => simp [Kernel.record]
  | some d => cases ht : d.tty <;> simp [Kernel.record, ht]

theorem setfl_fields (k : Kernel) (fd arg : Int) :
    (sys_fcntl_setfl k fd arg).2.fdt = k.fdt ∧
    (sys_fcntl_setfl k fd arg).2.out = k.out ∧ (sys_fcntl_setfl k fd arg).2.err = k.err ∧
    (sys_fcntl_setfl k fd arg).2.env = k.env ∧
    (sys_fcntl_setfl k fd arg).2.log = k.log ++ [.setfl fd arg (sys_fcntl_setfl k fd arg).1] := by
  unfold sys_fcntl_setfl
  cases h : assocGet fd k.std with
  | none => simp
  | some d => cases hs : d.setflErr <;> simp [hs]

theorem remove_append_fields (k : Kernel) (fd : Int) :
    (remove_append fd k).fdt = k.fdt ∧ (remove_append fd k).out = k.out ∧
    (remove_append fd k).err = k.err ∧ (remove_append fd k).env = k.env ∧
    (∃ pre, (remove_append fd k).log = k.log ++ pre ∧ pre.all Event.isSetup = true) := by
  unfold remove_append
  obtain ⟨_, g2, g3, g4, g5, g6⟩ := getfl_fields k fd
  by_cases hf : (sys_fcntl_getfl k fd).1 ≥ 0
  · obtain ⟨s1, s2, s3, s4, s5⟩ :=
      setfl_fields (sys_fcntl_getfl k fd).2 fd (int_xor (sys_fcntl_getfl k fd).1 O_APPEND)
    simp only [hf, if_true, s1, s2, s3, s4, s5, g2, g3, g4, g5, g6, true_and]
    exact ⟨_, by rw [List.append_assoc], by simp [Event.isSetup]⟩
  · simp only [hf, if_false, g2, g3, g4, g5, g6, true_and]
    exact ⟨_, rfl, by simp [Event.isSetup]⟩

theorem normalize_fields (k : Kernel) :
    (main_normalize k).fdt = k.fdt ∧ (main_normalize k).out = k.out ∧
    (main_normalize k).err = k.err ∧ (main_normalize k).env = k.env ∧
    (∃ pre, (main_normalize k).log = k.log ++ pre ∧ pre.all Event.isSetup = true) := by
  unfold main_normalize stdout_append
  obtain ⟨_, g2, g3, g4, g5, g6⟩ := getfl_fields k STDOUT_FILENO
  by_cases ha : int_and (sys_fcntl_getfl k STDOUT_FILENO).1 O_APPEND = 0
  · simp [ha, g2, g3, g4, g5, g6, Event.isSetup]
  · simp only [ha, ne_eq, not_false_eq_true, decide_True, if_true]
    obtain ⟨_, t2, t3, t4, t5, t6⟩ := isatty_fields (sys_fcntl_getfl k STDOUT_FILENO).2 STDOUT_FILENO
    by_cases ht : (sys_isatty (sys_fcntl_getfl k STDOUT_FILENO).2 STDOUT_FILENO).1 = 0
    · simp only [ht, not_true_eq_false, if_false, t2, t3, t4, t5, t6, g2, g3, g4, g5, g6, true_and]
      exact ⟨_, by rw [List.append_assoc], by simp [Event.isSetup]⟩
    · obtain ⟨r2, r3, r4, r5, pre, r6, r7⟩ :=
        remove_append_fields (sys_isatty (sys_fcntl_getfl k STDOUT_FILENO).2 STDOUT_FILENO).2 STDOUT_FILENO
      simp only [ht, not_false_eq_true, if_true, r2, r3, r4, r5, r6, t2, t3, t4, t5, t6, g2, g3, g4,
        g5, g6, true_and]
      exact ⟨_, by rw [List.append_assoc, List.append_assoc], by simp [Event.isSetup, r7]⟩

theorem preOpen_fields (env : Env) :
    (preOpen env).fdt = [] ∧ (preOpen env).out = [] ∧ (preOpen env).err = "" ∧
    (preOpen env).env = env ∧ (preOpen env).log.all Event.isSetup = true := by
  unfold preOpen stdout_append
  obtain ⟨n2, n3, n4, n5, pre, n6, n7⟩ := normalize_fields (boot env)
  obtain ⟨_, g2, g3, g4, g5, g6⟩ := getfl_fields (main_normalize (boot env)) STDOUT_FILENO
  simp only [g2, g3, g4, g5, g6, n2, n3, n4, n5, n6]
  simp [boot, n7, Event.isSetup]

theorem preOpen_gate (env : Env) (h : stillAppend env = false) :
    outGate (preOpen env).std = none := by
  unfold stillAppend stdout_append at h
  unfold preOpen stdout_append
  obtain ⟨g1, -⟩ := getfl_fields (main_normalize (boot env)) STDOUT_FILENO
  simp only [g1]
  unfold sys_fcntl_getfl at h
  unfold outGate
  cases hg : assocGet STDOUT_FILENO (main_normalize (boot env)).std with
  | none => simp [hg, int_and_neg_one_append] at h
  | some d => simpa [hg] using h

theorem main_unfold (env : Env) (argv : List String) (hargc : 2 ≤ argv.length) :
    main argv env =
      if stillAppend env then
        (EXIT_FAILURE, fprintf_stderr (preOpen env) "Unable to append to files.\n")
      else
        match main_open_loop argv.tail (preOpen env) [] with
        | (none, k2) => (EXIT_FAILURE, k2)
        | (some fds, k2) =>
          match main_copy_loop fds k2 with
          | (some status, k3) => (status, k3)
          | (none, k3) => (EXIT_SUCCESS, k3) := by
  have h : ¬ argv.length < 2 := by omega
  simp only [main, main_from, h, if_false, stillAppend, preOpen]

theorem main_append (env : Env) (argv : List String) (hargc : 2 ≤ argv.length)
    (happ : stillAppend env = true) :
    (main argv env).1 = EXIT_FAILURE ∧ (main argv env).2.log = (preOpen env).log ∧
    (main argv env).2.out = [] ∧ (main argv env).2.fdt = [] ∧
    (main argv env).2.err = "Unable to append to files.\n" ∧
    (main argv env).2.std = (preOpen env).std := by
  obtain ⟨p1, p2, p3, -, -⟩ := preOpen_fields env
  rw [main_unfold env argv hargc]
  simp [happ, fprintf_stderr, p1, p2, p3]

theorem main_open_fail (env : Env) (argv : List String) (hargc : 2 ≤ argv.length)
    (happ : stillAppend env = false) (hopen : argv.tail.all env.opens = false) :
    (main argv env).1 = EXIT_FAILURE ∧
    (main argv env).2.log = (preOpen env).log ++ openLog env (preOpen env).used argv.tail ∧
    (main argv env).2.out = [] ∧
    (main argv env).2.fdt = openedEntries env (preOpen env).used argv.tail := by
  obtain ⟨p1, p2, p3, p4, -⟩ := preOpen_fields env
  obtain ⟨o1, o2, o3, o4, -, -⟩ := open_loop_sim argv.tail (preOpen env) []
  rw [p4] at o1 o2 o3
  rw [main_unfold env argv hargc]
  rcases hloop : main_open_loop argv.tail (preOpen env) [] with ⟨o, k2⟩
  rw [hloop] at o1 o2 o3 o4
  simp only [hopen, Bool.false_eq_true, if_false] at o1
  simp only at o1 o2 o3 o4
  subst o1
  simp [happ, o2, o3, o4, p1, p2]

theorem main_copy (env : Env) (argv : List String) (hargc : 2 ≤ argv.length)
    (happ : stillAppend env = false) (hopen : argv.tail.all env.opens = true) :
    (main argv env).1 =
      (runRet env (openedEntries env (preOpen env).used argv.tail)).getD EXIT_SUCCESS ∧
    (main argv env).2.log = (preOpen env).log ++ openLog env (preOpen env).used argv.tail ++
      runLog env (openedEntries env (preOpen env).used argv.tail) ∧
    (main argv env).2.out = runOut env (openedEntries env (preOpen env).used argv.tail) ∧
    (main argv env).2.fdt = runLeft env (openedEntries env (preOpen env).used argv.tail) := by
  obtain ⟨p1, p2, p3, p4, -⟩ := preOpen_fields env
  obtain ⟨o1, o2, o3, o4, o5, o6⟩ := open_loop_sim argv.tail (preOpen env) []
  rw [p4] at o1 o2 o3
  rw [main_unfold env argv hargc]
  rcases hloop : main_open_loop argv.tail (preOpen env) [] with ⟨o, k2⟩
  rw [hloop] at o1 o2 o3 o4 o5 o6
  simp only [hopen, if_true, List.nil_append] at o1
  simp only at o1 o2 o3 o4 o5 o6
  subst o1
  rw [p1, List.nil_append] at o3
  have hg : outGate k2.std = none := by rw [o5]; exact preOpen_gate env happ
  obtain ⟨c1, c2, c3, c4, -, -, -⟩ :=
    copy_loop_sim (openedEntries env (preOpen env).used argv.tail) k2 o3 hg
  rw [o6, p4] at c1 c2 c3 c4
  simp only [happ, Bool.false_eq_true, if_false]
  rcases hcopy : main_copy_loop
    (List.map Prod.fst (openedEntries env (preOpen env).used argv.tail)) k2 with ⟨st, k3⟩
  rw [hcopy] at c1 c2 c3 c4
  simp only at c1 c2 c3 c4
  cases st with
  | none => simp [← c1, c2, c3, c4, o2, o4, p2]
  | some v => simp [← c1, c2, c3, c4, o2, o4, p2]

theorem openedEntries_cons_ok (env : Env) (used : List Int) (p : String) (ps : List String)
    (h : env.opens p = true) :
    openedEntries env used (p :: ps) =
      (lowestFree used, env.fileOf p) :: openedEntries env (used ++ [lowestFree used]) ps := by
  unfold Env.opens at h
  cases hp : env.fs p with
  | error e => simp [hp] at h
  | ok data => simp [openedEntries, hp, Env.fileOf, Env.contents]

theorem fileOf_path (env : Env) (p : String) : (env.fileOf p).path = p := rfl

theorem all_opens_of_forall (env : Env) (ps : List String)
    (h : ∀ p ∈ ps, env.opens p = true) : ps.all env.opens = true := by
  simpa [List.all_eq_true] using h

theorem filterMap_none {α : Type} (f : Event → Option α) (l : List Event)
    (h : ∀ e ∈ l, f e = none) : l.filterMap f = [] := by
  induction l with
  | nil => rfl
  | cons a t ih =>
    rw [List.filterMap_cons, h a (List.mem_cons_self _ _)]
    exact ih (fun e he => h e (List.mem_cons_of_mem _ he))

theorem setup_quiet (e : Event) (h : e.isSetup = true) :
    e.isOpen = false ∧ e.isTransfer = false ∧ e.isClose = false ∧ e.openPath = none ∧
    e.openedFd = none ∧ e.spliceFd = none ∧ e.sendfileFd = none ∧ e.closeFd = none ∧
    e.movedFd = none ∧ ∀ fd, e.usesFd fd = false := by
  cases e <;> simp [Event.isSetup] at h <;>
    simp [Event.isOpen, Event.isTransfer, Event.isClose, Event.openPath, Event.openedFd,
      Event.spliceFd, Event.sendfileFd, Event.closeFd, Event.movedFd, Event.usesFd]

theorem open_quiet (e : Event) (h : e.isOpen = true) :
    e.isSetup = false ∧ e.isTransfer = false ∧ e.isClose = false ∧
    e.spliceFd = none ∧ e.sendfileFd = none ∧ e.closeFd = none ∧
    e.movedFd = none ∧ ∀ fd, e.usesFd fd = false := by
  cases e <;> simp [Event.isOpen] at h
  simp [Event.isSetup, Event.isTransfer, Event.isClose,
    Event.spliceFd, Event.sendfileFd, Event.closeFd, Event.movedFd, Event.usesFd]

theorem preOpen_setup (env : Env) : ∀ e ∈ (preOpen env).log, e.isSetup = true := by
  obtain ⟨-, -, -, -, h⟩ := preOpen_fields env
  simpa [List.all_eq_true] using h

theorem openLog_isOpen (env : Env) : ∀ (ps : List String) (used : List Int),
    ∀ e ∈ openLog env used ps, e.isOpen = true := by
  intro ps
  induction ps with
  | nil => intro used e he; simp [openLog] at he
  | cons p ps ih =>
    intro used e he
    unfold openLog at he
    cases hp : env.fs p with
    | error x =>
      simp only [hp, List.mem_singleton] at he
      subst he
      rfl
    | ok data =>
      simp only [hp, List.mem_cons] at he
      rcases he with h | h
      · subst h; rfl
      · exact ih _ e h

theorem opensOf_openLog (env : Env) : ∀ (ps : List String) (used : List Int),
    opensOf (openLog env used ps) = ps.take ((ps.takeWhile env.opens).length + 1) := by
  intro ps
  induction ps with
  | nil => intro used; simp [openLog, opensOf]
  | cons p ps ih =>
    intro used
    cases hp : env.fs p with
    | error x => simp [openLog, hp, opensOf, Event.openPath, List.takeWhile, Env.opens]
    | ok data =>
      have := ih (used ++ [lowestFree used])
      simp only [opensOf] at this
      simp [openLog, hp, opensOf, Event.openPath, List.takeWhile, Env.opens, this]

theorem opensOf_main_prefix (env : Env) (argv : List String) (hargc : 2 ≤ argv.length)
    (hall : argv.tail.all env.opens = false) :
    opensOf (main argv env).2.log <+:
      argv.tail.take ((argv.tail.takeWhile env.opens).length + 1) := by
  cases happ : stillAppend env with
  | true =>
    obtain ⟨-, m2, -⟩ := main_append env argv hargc happ
    rw [m2, opensOf, filterMap_none _ _ (fun e he => (setup_quiet e (preOpen_setup env e he)).2.2.2.1)]
    exact List.nil_prefix
  | false =>
    obtain ⟨-, m2, -⟩ := main_open_fail env argv hargc happ hall
    rw [m2, opensOf, List.filterMap_append,
      filterMap_none _ _ (fun e he => (setup_quiet e (preOpen_setup env e he)).2.2.2.1),
      List.nil_append]
    exact (opensOf_openLog env argv.tail (preOpen env).used) ▸ List.prefix_refl _

theorem main_no_copy_quiet (env : Env) (argv : List String) (hargc : 2 ≤ argv.length)
    (hall : argv.tail.all env.opens = false) :
    (main argv env).1 = EXIT_FAILURE ∧ (main argv env).2.out = [] ∧
    ∀ e ∈ (main argv env).2.log, e.isSetup = true ∨ e.isOpen = true := by
  cases happ : stillAppend env with
  | true =>
    obtain ⟨m1, m2, m3, -⟩ := main_append env argv hargc happ
    refine ⟨m1, m3, fun e he => ?_⟩
    rw [m2] at he
    exact Or.inl (preOpen_setup env e he)
  | false =>
    obtain ⟨m1, m2, m3, -⟩ := main_open_fail env argv hargc happ hall
    refine ⟨m1, m3, fun e he => ?_⟩
    rw [m2] at he
    rcases List.mem_append.mp he with h | h
    · exact Or.inl (preOpen_setup env e h)
    · exact Or.inr (openLog_isOpen env _ _ e h)

theorem openedEntries_fresh (env : Env) : ∀ (ps : List String) (used : List Int),
    (∀ fd ∈ (openedEntries env used ps).map Prod.fst, fd ∉ used) ∧
    ((openedEntries env used ps).map Prod.fst).Nodup := by
  intro ps
  induction ps with
  | nil => intro used; simp [openedEntries]
  | cons p ps ih =>
    intro used
    cases hp : env.fs p with
    | error x => simp [openedEntries, hp]
    | ok data =>
      obtain ⟨i1, i2⟩ := ih (used ++ [lowestFree used])
      simp only [openedEntries, hp, List.map_cons, List.mem_cons, List.nodup_cons]
      refine ⟨fun fd hfd => ?_, fun hmem => ?_, i2⟩
      · rcases hfd with h | h
        · rw [h]; exact lowestFree_not_mem used
        · exact fun hu => i1 fd h (List.mem_append_left _ hu)
      · exact i1 _ hmem (List.mem_append_right _ (List.mem_singleton_self _))

theorem openedFds_openLog (env : Env) : ∀ (ps : List String) (used : List Int),
    openedFds (openLog env used ps) = (openedEntries env used ps).map Prod.fst := by
  intro ps
  induction ps with
  | nil => intro used; simp [openLog, openedEntries, openedFds]
  | cons p ps ih =>
    intro used
    cases hp : env.fs p with
    | error x => simp [openLog, openedEntries, hp, openedFds, Event.openedFd]
    | ok data =>
      have := ih (used ++ [lowestFree used])
      simp only [openedFds] at this
      simp [openLog, openedEntries, hp, openedFds, Event.openedFd, lowestFree_nonneg, this]

theorem segEvents_spliceFds (env : Env) (fd : Int) (f : OpenFile) :
    spliceFds (segEvents env fd f) = [fd] := by
  unfold segEvents spliceFds
  cases env.finalRes f <;> by_cases h : env.spliceRes f = .failed EINVAL <;>
    simp [h, Event.spliceFd]

theorem segEvents_openedFds (env : Env) (fd : Int) (f : OpenFile) :
    openedFds (segEvents env fd f) = [] := by
  unfold segEvents openedFds
  cases env.finalRes f <;> by_cases h : env.spliceRes f = .failed EINVAL <;>
    simp [h, Event.openedFd]

theorem segEvents_sendfileFds (env : Env) (fd : Int) (f : OpenFile) :
    sendfileFds (segEvents env fd f) = if env.spliceRes f = .failed EINVAL then [fd] else [] := by
  unfold segEvents sendfileFds
  cases env.finalRes f <;> by_cases h : env.spliceRes f = .failed EINVAL <;>
    simp [h, Event.sendfileFd]

theorem segEvents_closeFds (env : Env) (fd : Int) (f : OpenFile) :
    closeFds (segEvents env fd f) =
      match env.finalRes f with
      | .moved _ => [fd]
      | .failed _ => [] := by
  unfold segEvents closeFds
  cases env.finalRes f <;> by_cases h : env.spliceRes f = .failed EINVAL <;>
    simp [h, Event.closeFd]

theorem runLog_spliceFds (env : Env) : ∀ es : List (Int × OpenFile),
    spliceFds (runLog env es) = (es.map Prod.fst).take (runCount env es) := by
  intro es
  induction es with
  | nil => simp [runLog, spliceFds]
  | cons a t ih =>
    obtain ⟨fd, f⟩ := a
    have hs := segEvents_spliceFds env fd f
    simp only [spliceFds] at hs ih
    simp only [runLog, runCount, spliceFds, List.filterMap_append, hs]
    cases env.finalRes f <;> simp [ih]

theorem runLog_closeFds (env : Env) : ∀ es : List (Int × OpenFile),
    closeFds (runLog env es) = (es.map Prod.fst).take (doneCount env es) := by
  intro es
  induction es with
  | nil => simp [runLog, closeFds]
  | cons a t ih =>
    obtain ⟨fd, f⟩ := a
    have hs := segEvents_closeFds env fd f
    simp only [closeFds] at hs ih
    simp only [runLog, doneCount, closeFds, List.filterMap_append, hs]
    cases env.finalRes f <;> simp [ih]

theorem runLog_openedFds (env : Env) : ∀ es : List (Int × OpenFile),
    openedFds (runLog env es) = [] := by
  intro es
  induction es with
  | nil => simp [runLog, openedFds]
  | cons a t ih =>
    obtain ⟨fd, f⟩ := a
    have hs := segEvents_openedFds env fd f
    simp only [openedFds] at hs ih
    simp only [runLog, openedFds, List.filterMap_append, hs]
    cases env.finalRes f <;> simp [ih]

theorem runLog_sendfileFds (env : Env) : ∀ es : List (Int × OpenFile),
    (sendfileFds (runLog env es)).Sublist (spliceFds (runLog env es)) := by
  intro es
  induction es with
  | nil => simp [runLog, sendfileFds, spliceFds]
  | cons a t ih =>
    obtain ⟨fd, f⟩ := a
    have hs := segEvents_spliceFds env fd f
    have hf := segEvents_sendfileFds env fd f
    simp only [spliceFds, sendfileFds] at hs hf ih
    simp only [runLog, spliceFds, sendfileFds, List.filterMap_append, hs, hf]
    cases env.finalRes f with
    | moved n =>
      by_cases h : env.spliceRes f = .failed EINVAL
      · simpa [h] using ih
      · simpa [h] using ih.trans (List.sublist_cons_self _ _)
    | failed e =>
      by_cases h : env.spliceRes f = .failed EINVAL <;> simp [h]

theorem finalRes_transfers (env : Env) (p : String) (h : env.transfers p = true) :
    ∃ n, env.finalRes (env.fileOf p) = .moved n := by
  unfold Env.transfers at h
  unfold Env.finalRes Env.spliceRes Env.sendfileRes
  rw [fileOf_path]
  cases hs : env.spliceOutcome p with
  | move l => simp
  | fail e =>
    cases hf : env.sendfileOutcome p with
    | move l =>
      simp only [hs, hf, Bool.and_true, decide_eq_true_eq] at h
      simp [h]
    | fail e2 => simp [hs, hf] at h

theorem finalRes_fails (env : Env) (p : String) (e : PNat)
    (h : (env.spliceOutcome p = .fail e ∧ ((e : Nat) : Int) ≠ EINVAL) ∨
      (env.spliceOutcome p = .fail 22 ∧ env.sendfileOutcome p = .fail e)) :
    env.finalRes (env.fileOf p) = .failed ((e : Nat) : Int) := by
  unfold Env.finalRes Env.spliceRes Env.sendfileRes
  rw [fileOf_path]
  rcases h with ⟨hs, hne⟩ | ⟨hs, hf⟩
  · simp [hs, hne]
  · simp [hs, hf, EINVAL]

theorem run_until_failure (env : Env) (p : String) (post : List String) (e : PNat)
    (hfail : (env.spliceOutcome p = .fail e ∧ ((e : Nat) : Int) ≠ EINVAL) ∨
      (env.spliceOutcome p = .fail 22 ∧ env.sendfileOutcome p = .fail e)) :
    ∀ (pre : List String) (used : List Int),
    (∀ q ∈ pre ++ p :: post, env.opens q = true) → (∀ q ∈ pre, env.transfers q = true) →
    runRet env (openedEntries env used (pre ++ p :: post)) = some ((e : Nat) : Int) ∧
    runOut env (openedEntries env used (pre ++ p :: post)) = (pre.map env.delivered).flatten ∧
    runCount env (openedEntries env used (pre ++ p :: post)) = pre.length + 1 ∧
    doneCount env (openedEntries env used (pre ++ p :: post)) = pre.length := by
  intro pre
  induction pre with
  | nil =>
    intro used hopen _
    have hp := hopen p (by simp)
    rw [List.nil_append, openedEntries_cons_ok env used p post hp]
    simp [runRet, runOut, runCount, doneCount, finalRes_fails env p e hfail, segBytes]
  | cons q pre ih =>
    intro used hopen hpre
    have hq := hopen q (by simp)
    obtain ⟨n, hn⟩ := finalRes_transfers env q (hpre q (List.mem_cons_self _ _))
    obtain ⟨i1, i2, i3, i4⟩ := ih (used ++ [lowestFree used])
      (fun x hx => hopen x (by simp only [List.cons_append, List.mem_cons]; exact Or.inr hx))
      (fun x hx => hpre x (List.mem_cons_of_mem _ hx))
    rw [List.cons_append, openedEntries_cons_ok env used q _ hq]
    simp [runRet, runOut, runCount, doneCount, hn, i1, i2, i3, i4, Env.delivered]

theorem main_copy_projections (env : Env) (argv : List String) (hargc : 2 ≤ argv.length)
    (happ : stillAppend env = false) (hopen : argv.tail.all env.opens = true) :
    openedFds (main argv env).2.log =
      (openedEntries env (preOpen env).used argv.tail).map Prod.fst ∧
    spliceFds (main argv env).2.log =
      spliceFds (runLog env (openedEntries env (preOpen env).used argv.tail)) ∧
    sendfileFds (main argv env).2.log =
      sendfileFds (runLog env (openedEntries env (preOpen env).used argv.tail)) ∧
    closeFds (main argv env).2.log =
      closeFds (runLog env (openedEntries env (preOpen env).used argv.tail)) := by
  obtain ⟨-, m2, -, -⟩ := main_copy env argv hargc happ hopen
  have hs := fun e he => setup_quiet e (preOpen_setup env e he)
  have ho := fun e he => open_quiet e (openLog_isOpen env argv.tail (preOpen env).used e he)
  have h1 := openedFds_openLog env argv.tail (preOpen env).used
  have h2 := runLog_openedFds env (openedEntries env (preOpen env).used argv.tail)
  simp only [openedFds] at h1 h2
  rw [m2]
  refine ⟨?_, ?_, ?_, ?_⟩
  · simp only [openedFds, List.filterMap_append, h1, h2, List.append_nil,
      filterMap_none _ _ (fun e he => (hs e he).2.2.2.2.1), List.nil_append]
  · simp only [spliceFds, List.filterMap_append,
      filterMap_none _ _ (fun e he => (hs e he).2.2.2.2.2.1),
      filterMap_none _ _ (fun e he => (ho e he).2.2.2.1), List.nil_append]
  · simp only [sendfileFds, List.filterMap_append,
      filterMap_none _ _ (fun e he => (hs e he).2.2.2.2.2.2.1),
      filterMap_none _ _ (fun e he => (ho e he).2.2.2.2.1), List.nil_append]
  · simp only [closeFds, List.filterMap_append,
      filterMap_none _ _ (fun e he => (hs e he).2.2.2.2.2.2.2.1),
      filterMap_none _ _ (fun e he => (ho e he).2.2.2.2.2.1), List.nil_append]

theorem closedAtOnce_append_quiet (l m : List Event) (h : ∀ e ∈ l, e.movedFd = none) :
    closedAtOnce (l ++ m) = closedAtOnce m := by
  induction l with
  | nil => rfl
  | cons a t ih =>
    rw [List.cons_append, closedAtOnce, h a (List.mem_cons_self _ _),
      ih (fun e he => h e (List.mem_cons_of_mem _ he))]
    rfl

theorem noUseAfterClose_append_quiet (l m : List Event) (h : ∀ e ∈ l, e.closeFd = none) :
    noUseAfterClose (l ++ m) = noUseAfterClose m := by
  induction l with
  | nil => rfl
  | cons a t ih =>
    rw [List.cons_append, noUseAfterClose, h a (List.mem_cons_self _ _),
      ih (fun e he => h e (List.mem_cons_of_mem _ he))]
    rfl

theorem segEvents_uses (env : Env) (fd : Int) (f : OpenFile) (d : Int) :
    ∀ x ∈ segEvents env fd f, x.usesFd d = true → fd = d := by
  unfold segEvents
  cases hfin : env.finalRes f <;> by_cases h : env.spliceRes f = .failed EINVAL <;>
    simp [h, Event.usesFd]

theorem runLog_uses (env : Env) : ∀ (es : List (Int × OpenFile)) (x : Event) (d : Int),
    x ∈ runLog env es → x.usesFd d = true → d ∈ es.map Prod.fst := by
  intro es
  induction es with
  | nil => intro x d hx; simp [runLog] at hx
  | cons a t ih =>
    obtain ⟨fd, f⟩ := a
    intro x d hx hu
    simp only [runLog, List.mem_append] at hx
    rcases hx with h | h
    · rw [← segEvents_uses env fd f d x h hu]
      simp
    · cases hf : env.finalRes f with
      | moved n =>
        rw [hf] at h
        exact List.mem_cons_of_mem _ (ih x d h hu)
      | failed e => rw [hf] at h; simp at h

theorem runLog_closedAtOnce (env : Env) : ∀ es : List (Int × OpenFile),
    closedAtOnce (runLog env es) = true := by
  intro es
  induction es with
  | nil => rfl
  | cons a t ih =>
    obtain ⟨fd, f⟩ := a
    simp only [runLog, segEvents, Env.finalRes]
    cases hs : env.spliceRes f with
    | moved n => simp [closedAtOnce, Event.movedFd, closesNext, ih]
    | failed e =>
      by_cases he : e = EINVAL
      · cases hf : env.sendfileRes f with
        | moved n => simp [he, closedAtOnce, Event.movedFd, closesNext, ih]
        | failed e2 => simp [he, closedAtOnce, Event.movedFd, closesNext]
      · simp [he, closedAtOnce, Event.movedFd, closesNext]

theorem runLog_noUseAfterClose (env : Env) : ∀ es : List (Int × OpenFile),
    (es.map Prod.fst).Nodup → noUseAfterClose (runLog env es) = true := by
  intro es
  induction es with
  | nil => intro _; rfl
  | cons a t ih =>
    obtain ⟨fd, f⟩ := a
    intro hnd
    rw [List.map_cons, List.nodup_cons] at hnd
    have hrest : ∀ x ∈ runLog env t, x.usesFd fd = false := by
      intro x hx
      cases hu : x.usesFd fd with
      | false => rfl
      | true => exact absurd (runLog_uses env t x fd hx hu) hnd.1
    have ih1 := ih hnd.2
    simp only [runLog, segEvents, Env.finalRes]
    cases hs : env.spliceRes f with
    | moved n =>
      simp [noUseAfterClose, Event.closeFd, ih1]
      exact hrest
    | failed e =>
      by_cases he : e = EINVAL
      · cases hf : env.sendfileRes f with
        | moved n =>
          simp [he, noUseAfterClose, Event.closeFd, ih1]
          exact hrest
        | failed e2 => simp [he, noUseAfterClose, Event.closeFd]
      · simp [he, noUseAfterClose, Event.closeFd]

theorem finalRes_failed_pos (env : Env) (f : OpenFile) (e : Int)
    (h : env.finalRes f = .failed e) : 0 < e := by
  unfold Env.finalRes Env.spliceRes Env.sendfileRes at h
  cases hs : env.spliceOutcome f.path with
  | move l => simp [hs] at h
  | fail x =>
    have hx := x.pos
    by_cases hx2 : ((x : Nat) : Int) = EINVAL
    · cases hf : env.sendfileOutcome f.path with
      | move l => simp [hs, hf, hx2] at h
      | fail y =>
        have hy := y.pos
        simp only [hs, hf, hx2, if_true, Res.failed.injEq] at h
        omega
    · simp only [hs, Res.failed.injEq, hx2, if_false] at h
      omega

theorem runRet_cases (env : Env) : ∀ es : List (Int × OpenFile),
    (runRet env es = none → runLeft env es = []) ∧
    (∀ e, runRet env es = some e → 0 < e) ∧
    doneCount env es ≤ runCount env es := by
  intro es
  induction es with
  | nil => simp [runRet, runLeft, doneCount, runCount]
  | cons a t ih =>
    obtain ⟨fd, f⟩ := a
    simp only [runRet, runLeft, doneCount, runCount]
    cases hf : env.finalRes f with
    | moved n =>
      obtain ⟨i1, i2, i3⟩ := ih
      exact ⟨i1, i2, by simp only; omega⟩
    | failed e =>
      refine ⟨by simp, fun x hx => ?_, by simp only; omega⟩
      simp only [Option.some.injEq] at hx
      subst hx
      exact finalRes_failed_pos env f e hf

theorem main_shape (env : Env) (argv : List String) :
    ∃ (quiet : List Event) (es : List (Int × OpenFile)),
      (main argv env).2.log = quiet ++ runLog env es ∧
      (∀ e ∈ quiet, e.isSetup = true ∨ e.isOpen = true) ∧
      (openedFds quiet).Nodup ∧
      es.map Prod.fst <+: openedFds quiet ∧
      ((main argv env).1 = EXIT_SUCCESS → (main argv env).2.fdt = []) := by
  by_cases hargc : argv.length < 2
  · refine ⟨[], [], ?_, by simp, by simp [openedFds], by simp, ?_⟩
    · simp [main, main_from, hargc, fprintf_stderr, print_usage, printf_stdout, boot, runLog]
    · simp [main, main_from, hargc, EXIT_FAILURE, EXIT_SUCCESS]
  · have hargc2 : 2 ≤ argv.length := by omega
    have hs := fun e he => setup_quiet e (preOpen_setup env e he)
    cases happ : stillAppend env with
    | true =>
      obtain ⟨m1, m2, -⟩ := main_append env argv hargc2 happ
      refine ⟨(preOpen env).log, [], by simp [m2, runLog],
        fun e he => Or.inl (preOpen_setup env e he), ?_, by simp, ?_⟩
      · rw [openedFds, filterMap_none _ _ (fun e he => (hs e he).2.2.2.2.1)]
        exact List.nodup_nil
      · rw [m1]
        intro h
        exact absurd h (by decide)
    | false =>
      have hquiet : ∀ e ∈ (preOpen env).log ++ openLog env (preOpen env).used argv.tail,
          e.isSetup = true ∨ e.isOpen = true := by
        intro e he
        rcases List.mem_append.mp he with h | h
        · exact Or.inl (preOpen_setup env e h)
        · exact Or.inr (openLog_isOpen env _ _ e h)
      have hfds : openedFds ((preOpen env).log ++ openLog env (preOpen env).used argv.tail) =
          (openedEntries env (preOpen env).used argv.tail).map Prod.fst := by
        have h1 := openedFds_openLog env argv.tail (preOpen env).used
        simp only [openedFds] at h1
        simp only [openedFds, List.filterMap_append, h1,
          filterMap_none _ _ (fun e he => (hs e he).2.2.2.2.1), List.nil_append]
      have hnd := (openedEntries_fresh env argv.tail (preOpen env).used).2
      cases hall : argv.tail.all env.opens with
      | false =>
        obtain ⟨m1, m2, -⟩ := main_open_fail env argv hargc2 happ hall
        refine ⟨_, [], by rw [m2]; simp [runLog], hquiet, by rw [hfds]; exact hnd, by simp, ?_⟩
        rw [m1]
        intro h
        exact absurd h (by decide)
      | true =>
        obtain ⟨m1, m2, -, m4⟩ := main_copy env argv hargc2 happ hall
        refine ⟨_, _, m2, hquiet, by rw [hfds]; exact hnd, by rw [hfds], ?_⟩
        obtain ⟨r1, r2, -⟩ := runRet_cases env (openedEntries env (preOpen env).used argv.tail)
        intro h
        rw [m1] at h
        rw [m4]
        cases hr : runRet env (openedEntries env (preOpen env).used argv.tail) with
        | none => exact r1 hr
        | some e =>
          have := r2 e hr
          rw [hr] at h
          simp only [Option.getD_some, EXIT_SUCCESS] at h
          omega

theorem nat_xor_append (n : Nat) (hn : n < 2147483648) (hset : Nat.land n 1024 ≠ 0) :
    Nat.xor n 1024 = Nat.land n 4294966271 ∧ Nat.land (Nat.xor n 1024) 1024 = 0 := by
  have h10 : n.testBit 10 = true := by
    cases h : n.testBit 10 with
    | true => rfl
    | false =>
      exfalso
      apply hset
      apply Nat.eq_of_testBit_eq
      intro i
      have : (1024 : Nat) = 2 ^ 10 := by norm_num
      show (n &&& 1024).testBit i = Nat.testBit 0 i
      rw [Nat.testBit_and, this, Nat.testBit_two_pow]
      by_cases hi : 10 = i
      · subst hi; simp [h]
      · simp [hi]
  have hc : (4294966271 : Nat) = (2 ^ 32 - 1) ^^^ 2 ^ 10 := by decide
  have hb : (1024 : Nat) = 2 ^ 10 := by norm_num
  have hhi : ∀ i, 32 ≤ i → n.testBit i = false := by
    intro i hi
    apply Nat.testBit_lt_two_pow
    calc n < 2147483648 := hn
      _ = 2 ^ 31 := by norm_num
      _ ≤ 2 ^ i := Nat.pow_le_pow_right (by norm_num) (by omega)
  constructor
  · apply Nat.eq_of_testBit_eq
    intro i
    show (n ^^^ 1024).testBit i = (n &&& 4294966271).testBit i
    rw [Nat.testBit_xor, Nat.testBit_and, hc, Nat.testBit_xor, hb, Nat.testBit_two_pow,
      Nat.testBit_two_pow_sub_one]
    by_cases hi : 10 = i
    · subst hi; simp [h10]
    · by_cases h32 : i < 32
      · simp [hi, h32]
      · simp [hi, h32, hhi i (by omega)]
  · apply Nat.eq_of_testBit_eq
    intro i
    show ((n ^^^ 1024) &&& 1024).testBit i = Nat.testBit 0 i
    rw [Nat.testBit_and, Nat.testBit_xor, hb, Nat.testBit_two_pow]
    by_cases hi : 10 = i
    · subst hi; simp [h10]
    · simp [hi]

theorem int_bits_small (n : Nat) (hn : n < 2147483648) : int_bits (n : Int) = n := by
  unfold int_bits
  have : ((n : Int) % 4294967296) = (n : Int) := Int.emod_eq_of_lt (by omega) (by omega)
  rw [this]
  simp

theorem int_of_bits_small (n : Nat) (hn : n < 2147483648) : int_of_bits n = (n : Int) := by
  simp [int_of_bits, hn]

theorem int_xor_append_when_set (flags : Nat) (hn : flags < 2147483648)
    (hset : int_and (flags : Int) O_APPEND ≠ 0) :
    int_xor (flags : Int) O_APPEND = int_and (flags : Int) (int_not O_APPEND) ∧
    int_and (int_xor (flags : Int) O_APPEND) O_APPEND = 0 := by
  have hA : int_bits O_APPEND = 1024 := by decide
  have hN : int_bits (int_not O_APPEND) = 4294966271 := by decide
  have hland : Nat.land flags 1024 < 2147483648 :=
    lt_of_le_of_lt Nat.and_le_right (by norm_num)
  have hset2 : Nat.land flags 1024 ≠ 0 := by
    intro h
    apply hset
    simp only [int_and, int_bits_small flags hn, hA, h]
    decide
  obtain ⟨b1, b2⟩ := nat_xor_append flags hn hset2
  have hx : Nat.xor flags 1024 < 2147483648 := by
    have : Nat.xor flags 1024 < 2 ^ 31 :=
      Nat.xor_lt_two_pow (by norm_num; exact hn) (by norm_num)
    simpa using this
  have hxv : int_xor (flags : Int) O_APPEND = ((Nat.xor flags 1024 : Nat) : Int) := by
    simp only [int_xor, int_bits_small flags hn, hA]
    exact int_of_bits_small _ hx
  constructor
  · rw [hxv]
    simp only [int_and, int_bits_small flags hn, hN, ← b1]
    exact (int_of_bits_small _ hx).symm
  · rw [hxv]
    simp only [int_and, int_bits_small _ hx, hA, b2]
    decide

theorem assocGet_assocSet {α : Type} (fd : Int) (v : α) : ∀ (l : List (Int × α)) (w : α),
    assocGet fd l = some w → assocGet fd (assocSet fd v l) = some v := by
  intro l
  induction l with
  | nil => intro w h; simp [assocGet] at h
  | cons a t ih =>
    obtain ⟨k, x⟩ := a
    intro w h
    by_cases hk : k = fd
    · simp [assocSet, assocGet, hk]
    · simp only [assocGet, hk, if_false] at h
      simp [assocSet, assocGet, hk, ih w h]

theorem remove_append_writes_xor (k : Kernel) (fd : Int) (d : Desc)
    (hfd : assocGet fd k.std = some d) (hok : d.setflErr = none) :
    (remove_append fd k).log =
      k.log ++ [.getfl fd d.flags, .setfl fd (int_xor (d.flags : Int) O_APPEND) 0] ∧
    assocGet fd (remove_append fd k).std =
      some { d with flags := (int_xor (d.flags : Int) O_APPEND).toNat } := by
  have hx := assocGet_assocSet fd { d with flags := (int_xor (d.flags : Int) O_APPEND).toNat }
    k.std d hfd
  simp only [hok] at hx
  simp [remove_append, sys_fcntl_getfl, sys_fcntl_setfl, hfd, hok, Kernel.record, hx]

theorem main_normalize_tty (env : Env) (d : Desc)
    (hstd : assocGet STDOUT_FILENO env.std = some d)
    (hflags : d.flags < 2147483648)
    (hset : int_and (d.flags : Int) O_APPEND ≠ 0)
    (htty : d.tty = true) (hok : d.setflErr = none) :
    stillAppend env = false ∧
    (preOpen env).log =
      [.getfl STDOUT_FILENO d.flags, .isatty STDOUT_FILENO 1, .getfl STDOUT_FILENO d.flags,
       .setfl STDOUT_FILENO (int_and (d.flags : Int) (int_not O_APPEND)) 0,
       .getfl STDOUT_FILENO (int_and (d.flags : Int) (int_not O_APPEND))] := by
  obtain ⟨x1, x2⟩ := int_xor_append_when_set d.flags hflags hset
  have hnn : 0 ≤ int_xor (d.flags : Int) O_APPEND := by
    have hA : int_bits O_APPEND = 1024 := by decide
    have hx : Nat.xor d.flags 1024 < 2147483648 := by
      have : Nat.xor d.flags 1024 < 2 ^ 31 :=
        Nat.xor_lt_two_pow (by norm_num; exact hflags) (by norm_num)
      simpa using this
    simp only [int_xor, int_bits_small d.flags hflags, hA, int_of_bits_small _ hx]
    omega
  have hcast : (((int_xor (d.flags : Int) O_APPEND).toNat : Nat) : Int) =
      int_xor (d.flags : Int) O_APPEND := Int.toNat_of_nonneg hnn
  have hk1 : (sys_isatty (stdout_append (boot env)).2 STDOUT_FILENO).2.std = env.std := by
    simp [stdout_append, sys_fcntl_getfl, sys_isatty, boot, hstd, htty, Kernel.record]
  obtain ⟨r1, r2⟩ := remove_append_writes_xor
    (sys_isatty (stdout_append (boot env)).2 STDOUT_FILENO).2 STDOUT_FILENO d
    (by rw [hk1]; exact hstd) hok
  have hnorm : main_normalize (boot env) =
      remove_append STDOUT_FILENO (sys_isatty (stdout_append (boot env)).2 STDOUT_FILENO).2 := by
    simp [main_normalize, stdout_append, sys_fcntl_getfl, sys_isatty, boot, hstd, htty, hset,
      Kernel.record]
  have hlog1 : (sys_isatty (stdout_append (boot env)).2 STDOUT_FILENO).2.log =
      [.getfl STDOUT_FILENO d.flags, .isatty STDOUT_FILENO 1] := by
    simp [stdout_append, sys_fcntl_getfl, sys_isatty, boot, hstd, htty, Kernel.record]
  rw [hlog1] at r1
  rw [hok] at r2
  generalize remove_append STDOUT_FILENO
    (sys_isatty (stdout_append (boot env)).2 STDOUT_FILENO).2 = kR at r1 r2 hnorm
  constructor
  · simp [stillAppend, hnorm, stdout_append, sys_fcntl_getfl, r2, hcast, x2]
  · have hnn2 : 0 ≤ int_and (d.flags : Int) (int_not O_APPEND) := x1 ▸ hnn
    simp [preOpen, hnorm, stdout_append, sys_fcntl_getfl, r2, Kernel.record, r1, hcast, x1, hnn2]

/-! ## The claims -/

/-- C2, as amended.  When `main` is invoked without a file argument
(`argc < 2`) it returns `EXIT_FAILURE`, which is not zero, makes no system call
(so it opens no file and transfers nothing), writes `Invalid arguments.` to
standard error, and writes the usage line, `argv[0]` followed by
` FILE [FILE...]`, to standard output. -/
theorem main_without_files (env : Env) (argv : List String) (hargc : argv.length < 2) :
    (main argv env).1 = EXIT_FAILURE ∧ (main argv env).1 ≠ 0 ∧
    (main argv env).2.log = [] ∧ (main argv env).2.fdt = [] ∧
    (main argv env).2.err = "Invalid arguments.\n" ∧
    (main argv env).2.out = textBytes (argv.headD "(null)" ++ " FILE [FILE...]\n") := by
  simp [main, main_from, hargc, fprintf_stderr, print_usage, printf_stdout, boot, EXIT_FAILURE]

/-- Witness of `main_without_files`: the program name alone. -/
theorem main_without_files_witness :
    (main ["altcat"] envFull).1 = EXIT_FAILURE ∧ (main ["altcat"] envFull).1 ≠ 0 ∧
    (main ["altcat"] envFull).2.log = [] ∧ (main ["altcat"] envFull).2.fdt = [] ∧
    (main ["altcat"] envFull).2.err = "Invalid arguments.\n" ∧
    (main ["altcat"] envFull).2.out =
      textBytes ((["altcat"] : List String).headD "(null)" ++ " FILE [FILE...]\n") :=
  main_without_files envFull ["altcat"] (by decide)

/-- C2 fails as stated: invoked without a file argument, `main` writes the
22 bytes of the usage line to standard output. -/
theorem main_without_files_writes_stdout :
    (main ["altcat"] envFull).2.out = textBytes "altcat FILE [FILE...]\n" ∧
    (main ["altcat"] envFull).2.out.length = 22 ∧
    (main ["altcat"] envFull).2.out ≠ [] := by
  decide

/-- C4.  With at least one file argument, when standard output has
`O_APPEND` set and is not a terminal, `main` makes exactly three system calls,
two flag queries around one `isatty`: it never calls `F_SETFL`, the descriptor
table of the inherited descriptors is unchanged, the diagnostic
`Unable to append to files.` goes to standard error, the status is
`EXIT_FAILURE`, no file is opened and no byte reaches standard output. -/
theorem main_append_not_tty (env : Env) (argv : List String) (d : Desc)
    (hargc : 2 ≤ argv.length)
    (hstd : assocGet STDOUT_FILENO env.std = some d)
    (happ : int_and (d.flags : Int) O_APPEND ≠ 0)
    (htty : d.tty = false) :
    (main argv env).2.log =
      [.getfl STDOUT_FILENO d.flags, .isatty STDOUT_FILENO 0, .getfl STDOUT_FILENO d.flags] ∧
    (∀ e ∈ (main argv env).2.log,
      e.isSetfl = false ∧ e.isOpen = false ∧ e.isTransfer = false) ∧
    (main argv env).2.std = env.std ∧
    (main argv env).2.err = "Unable to append to files.\n" ∧
    (main argv env).1 = EXIT_FAILURE ∧ (main argv env).1 ≠ 0 ∧
    (main argv env).2.fdt = [] ∧ (main argv env).2.out = [] := by
  have hpre : preOpen env =
      { boot env with log := [.getfl STDOUT_FILENO d.flags, .isatty STDOUT_FILENO 0,
                              .getfl STDOUT_FILENO d.flags] } := by
    simp [preOpen, main_normalize, stdout_append, sys_fcntl_getfl, sys_isatty, boot, hstd, happ,
      htty, Kernel.record]
  have hstill : stillAppend env = true := by
    simp [stillAppend, main_normalize, stdout_append, sys_fcntl_getfl, sys_isatty, boot, hstd,
      happ, htty, Kernel.record]
  obtain ⟨m1, m2, m3, m4, m5, m6⟩ := main_append env argv hargc hstill
  rw [hpre] at m2 m6
  simp only [m1, m2, m3, m4, m5, m6]
  simp [boot, EXIT_FAILURE, Event.isSetfl, Event.isOpen, Event.isTransfer]

/-- Witness of `main_append_not_tty`: output appended to a regular file. -/
theorem main_append_not_tty_witness :
    (main ["altcat", "a", "b"] envAppend).2.log =
      [.getfl STDOUT_FILENO (1025 : Nat), .isatty STDOUT_FILENO 0,
       .getfl STDOUT_FILENO (1025 : Nat)] ∧
    (∀ e ∈ (main ["altcat", "a", "b"] envAppend).2.log,
      e.isSetfl = false ∧ e.isOpen = false ∧ e.isTransfer = false) ∧
    (main ["altcat", "a", "b"] envAppend).2.std = envAppend.std ∧
    (main ["altcat", "a", "b"] envAppend).2.err = "Unable to append to files.\n" ∧
    (main ["altcat", "a", "b"] envAppend).1 = EXIT_FAILURE ∧
    (main ["altcat", "a", "b"] envAppend).1 ≠ 0 ∧
    (main ["altcat", "a", "b"] envAppend).2.fdt = [] ∧
    (main ["altcat", "a", "b"] envAppend).2.out = [] :=
  main_append_not_tty envAppend ["altcat", "a", "b"]
    { flags := 1025, tty := false, setflErr := none } (by decide) (by decide) (by decide) rfl

/-- C7 fails on the code: called on a descriptor whose flags are `O_WRONLY`
(1), with `O_APPEND` clear, `remove_append` writes back 1025, which has
`O_APPEND` set, where `flags & ~O_APPEND` is 1. -/
theorem remove_append_sets_clear_flag :
    (remove_append STDOUT_FILENO (boot envFull)).log =
      [.getfl STDOUT_FILENO 1, .setfl STDOUT_FILENO 1025 0] ∧
    int_and 1 (int_not O_APPEND) = 1 ∧
    int_and 1 O_APPEND = 0 ∧
    (assocGet STDOUT_FILENO (remove_append STDOUT_FILENO (boot envFull)).std).map Desc.flags =
      some 1025 ∧
    int_and 1025 O_APPEND ≠ 0 := by
  decide

/-- C10.  `stdout_append` is true exactly when the value the flag query
returns has the `O_APPEND` bit set, and so it is true when the query returns
-1.  When the query on standard output fails, `main` with at least one file
argument makes the two flag queries around one `isatty`, writes
`Unable to append to files.` to standard error and returns `EXIT_FAILURE`; it
opens no file and no byte reaches standard output. -/
theorem stdout_append_when_query_fails (env : Env) (argv : List String)
    (hargc : 2 ≤ argv.length)
    (hfail : (sys_fcntl_getfl (boot env) STDOUT_FILENO).1 = -1) :
    (∀ k : Kernel, (stdout_append k).1 = true ↔
      int_and (sys_fcntl_getfl k STDOUT_FILENO).1 O_APPEND ≠ 0) ∧
    (∀ k : Kernel, (sys_fcntl_getfl k STDOUT_FILENO).1 = -1 → (stdout_append k).1 = true) ∧
    (main argv env).2.log =
      [.getfl STDOUT_FILENO (-1), .isatty STDOUT_FILENO 0, .getfl STDOUT_FILENO (-1)] ∧
    (∀ e ∈ (main argv env).2.log, e.isOpen = false ∧ e.isTransfer = false) ∧
    (main argv env).2.err = "Unable to append to files.\n" ∧
    (main argv env).1 = EXIT_FAILURE ∧ (main argv env).1 ≠ 0 ∧
    (main argv env).2.fdt = [] ∧ (main argv env).2.out = [] := by
  have hstd : assocGet STDOUT_FILENO env.std = none := by
    cases h : assocGet STDOUT_FILENO env.std with
    | none => rfl
    | some d =>
      simp only [sys_fcntl_getfl, boot, h] at hfail
      omega
  have hpre : preOpen env =
      { boot env with errno := EBADF,
                      log := [.getfl STDOUT_FILENO (-1), .isatty STDOUT_FILENO 0,
                              .getfl STDOUT_FILENO (-1)] } := by
    simp [preOpen, main_normalize, stdout_append, sys_fcntl_getfl, sys_isatty, boot, hstd,
      int_and_neg_one_append]
  have hstill : stillAppend env = true := by
    simp [stillAppend, main_normalize, stdout_append, sys_fcntl_getfl, sys_isatty, boot, hstd,
      int_and_neg_one_append]
  obtain ⟨m1, m2, m3, m4, m5, m6⟩ := main_append env argv hargc hstill
  rw [hpre] at m2
  refine ⟨fun k => by simp [stdout_append], fun k hk => ?_, ?_⟩
  · simp [stdout_append, hk, int_and_neg_one_append]
  · simp only [m1, m2, m3, m4, m5]
    simp [EXIT_FAILURE, Event.isOpen, Event.isTransfer]

/-- Witness of `stdout_append_when_query_fails`: standard output closed. -/
theorem stdout_append_when_query_fails_witness :
    (∀ k : Kernel, (stdout_append k).1 = true ↔
      int_and (sys_fcntl_getfl k STDOUT_FILENO).1 O_APPEND ≠ 0) ∧
    (∀ k : Kernel, (sys_fcntl_getfl k STDOUT_FILENO).1 = -1 → (stdout_append k).1 = true) ∧
    (main ["altcat", "a"] envClosed).2.log =
      [.getfl STDOUT_FILENO (-1), .isatty STDOUT_FILENO 0, .getfl STDOUT_FILENO (-1)] ∧
    (∀ e ∈ (main ["altcat", "a"] envClosed).2.log, e.isOpen = false ∧ e.isTransfer = false) ∧
    (main ["altcat", "a"] envClosed).2.err = "Unable to append to files.\n" ∧
    (main ["altcat", "a"] envClosed).1 = EXIT_FAILURE ∧ (main ["altcat", "a"] envClosed).1 ≠ 0 ∧
    (main ["altcat", "a"] envClosed).2.fdt = [] ∧ (main ["altcat", "a"] envClosed).2.out = [] :=
  stdout_append_when_query_fails envClosed ["altcat", "a"] (by decide) (by decide)

/-- C6 fails on the code: `splice` on the first input returns 1 where 3
bytes were requested; `main` closes that input, goes on to the second input
and returns 0. -/
theorem main_short_count_goes_on :
    (main ["altcat", "a", "b"] envShort).2.log =
      [.getfl 1 1, .getfl 1 1, .openRd "a" 3, .openRd "b" 4,
       .fstat 3 0 3, .splice 3 1 3 (.moved 1), .close 3 0,
       .fstat 4 0 2, .splice 4 1 2 (.moved 2), .close 4 0] ∧
    (main ["altcat", "a", "b"] envShort).1 = EXIT_SUCCESS ∧
    (main ["altcat", "a", "b"] envShort).2.out = [97, 100, 101] := by
  decide

/-- C3.  For every argument list in which some file cannot be opened, `main`
returns `EXIT_FAILURE`, which is not zero; the paths it passes to `open` stop
with the first file that cannot be opened (they are a prefix of the files up
to and including that one, whose index is the number of leading files that
can be opened); no call in the run is a `splice` or a `sendfile`; and no byte
reaches standard output. -/
theorem main_open_failure (env : Env) (argv : List String)
    (hfail : ∃ p ∈ argv.tail, env.opens p = false) :
    (main argv env).1 = EXIT_FAILURE ∧ (main argv env).1 ≠ 0 ∧
    opensOf (main argv env).2.log <+:
      argv.tail.take ((argv.tail.takeWhile env.opens).length + 1) ∧
    (∀ e ∈ (main argv env).2.log, e.isTransfer = false) ∧
    (main argv env).2.out = [] := by
  obtain ⟨p, hp, hpf⟩ := hfail
  have hargc : 2 ≤ argv.length := by
    cases argv with
    | nil => simp at hp
    | cons a t =>
      cases t with
      | nil => simp at hp
      | cons b t2 => simp
  have hall : argv.tail.all env.opens = false := by
    rw [Bool.eq_false_iff]
    intro h
    rw [List.all_eq_true] at h
    rw [h p hp] at hpf
    exact Bool.noConfusion hpf
  obtain ⟨q1, q2, q3⟩ := main_no_copy_quiet env argv hargc hall
  refine ⟨q1, ?_, opensOf_main_prefix env argv hargc hall, fun e he => ?_, q2⟩
  · rw [q1]; decide
  · rcases q3 e he with h | h
    · exact (setup_quiet e h).2.1
    · exact (open_quiet e h).2.1

/-- Witness of `main_open_failure`: the second of three files is missing. -/
theorem main_open_failure_witness :
    (main ["altcat", "a", "zz", "b"] envFull).1 = EXIT_FAILURE ∧
    (main ["altcat", "a", "zz", "b"] envFull).1 ≠ 0 ∧
    opensOf (main ["altcat", "a", "zz", "b"] envFull).2.log <+:
      (["altcat", "a", "zz", "b"] : List String).tail.take
        (((["altcat", "a", "zz", "b"] : List String).tail.takeWhile envFull.opens).length + 1) ∧
    (∀ e ∈ (main ["altcat", "a", "zz", "b"] envFull).2.log, e.isTransfer = false) ∧
    (main ["altcat", "a", "zz", "b"] envFull).2.out = [] :=
  main_open_failure envFull ["altcat", "a", "zz", "b"] ⟨"zz", by decide, by decide⟩

/-- C5.  In every run that reaches the loops (the second test of
`stdout_append()` is false) in which every open succeeds, the transfers of the
inputs before the `i`-th do not fail, and the transfer of the `i`-th fails
with error code `e` (`splice` fails with `e`, not `EINVAL`, or `splice` fails
with `EINVAL` and `sendfile` fails with `e`): `main` returns `e`, which is not
zero; what reached standard output is what the transfers of the inputs before
`i` delivered, and exactly those inputs were closed; `splice` was called on
the inputs up to `i`, in order, and neither `splice` nor `sendfile` was called
on any input after `i`. -/
theorem main_transfer_failure (env : Env) (argv pre post : List String) (p : String)
    (e : PNat)
    (hargs : argv.tail = pre ++ p :: post)
    (happ : stillAppend env = false)
    (hopen : ∀ q ∈ argv.tail, env.opens q = true)
    (hpre : ∀ q ∈ pre, env.transfers q = true)
    (hfail : (env.spliceOutcome p = .fail e ∧ ((e : Nat) : Int) ≠ EINVAL) ∨
      (env.spliceOutcome p = .fail 22 ∧ env.sendfileOutcome p = .fail e)) :
    (main argv env).1 = ((e : Nat) : Int) ∧ (main argv env).1 ≠ 0 ∧
    (main argv env).2.out = (pre.map env.delivered).flatten ∧
    closeFds (main argv env).2.log = (openedFds (main argv env).2.log).take pre.length ∧
    spliceFds (main argv env).2.log = (openedFds (main argv env).2.log).take (pre.length + 1) ∧
    (∀ fd ∈ (openedFds (main argv env).2.log).drop (pre.length + 1),
      fd ∉ spliceFds (main argv env).2.log ∧ fd ∉ sendfileFds (main argv env).2.log) := by
  have hargc : 2 ≤ argv.length := by
    cases argv with
    | nil => simp at hargs
    | cons a t =>
      cases t with
      | nil => simp at hargs
      | cons b t2 => simp
  have hall := all_opens_of_forall env argv.tail hopen
  obtain ⟨m1, -, m3, -⟩ := main_copy env argv hargc happ hall
  obtain ⟨j1, j2, j3, j4⟩ := main_copy_projections env argv hargc happ hall
  have hnd := (openedEntries_fresh env argv.tail (preOpen env).used).2
  have hsub := runLog_sendfileFds env (openedEntries env (preOpen env).used argv.tail)
  rw [← j2, ← j3] at hsub
  rw [runLog_spliceFds] at j2
  rw [runLog_closeFds] at j4
  rw [← j1] at j2 j4 hnd
  rw [hargs] at hopen m1 m3 j2 j4
  obtain ⟨r1, r2, r3, r4⟩ := run_until_failure env p post e hfail pre (preOpen env).used hopen hpre
  rw [r1] at m1
  rw [r2] at m3
  rw [r3] at j2
  rw [r4] at j4
  have hret : (main argv env).1 = ((e : Nat) : Int) := by simpa using m1
  refine ⟨hret, ?_, m3, j4, j2, fun fd hfd => ?_⟩
  · rw [hret]
    have := e.pos
    omega
  · have hdis := List.disjoint_take_drop hnd (le_refl (pre.length + 1))
    have hns : fd ∉ spliceFds (main argv env).2.log := by
      rw [j2]
      exact fun h => hdis h hfd
    exact ⟨hns, fun h => hns (hsub.subset h)⟩

/-- Witness of `main_transfer_failure`: on the second of three inputs
`splice` fails with `EINVAL` and `sendfile` with `EIO`. -/
theorem main_transfer_failure_witness :
    (main ["altcat", "a", "b", "a"] envFail).1 = (((5 : PNat) : Nat) : Int) ∧
    (main ["altcat", "a", "b", "a"] envFail).1 ≠ 0 ∧
    (main ["altcat", "a", "b", "a"] envFail).2.out =
      ((["a"] : List String).map envFail.delivered).flatten ∧
    closeFds (main ["altcat", "a", "b", "a"] envFail).2.log =
      (openedFds (main ["altcat", "a", "b", "a"] envFail).2.log).take
        ([("a" : String)]).length ∧
    spliceFds (main ["altcat", "a", "b", "a"] envFail).2.log =
      (openedFds (main ["altcat", "a", "b", "a"] envFail).2.log).take
        (([("a" : String)]).length + 1) ∧
    (∀ fd ∈ (openedFds (main ["altcat", "a", "b", "a"] envFail).2.log).drop
        (([("a" : String)]).length + 1),
      fd ∉ spliceFds (main ["altcat", "a", "b", "a"] envFail).2.log ∧
      fd ∉ sendfileFds (main ["altcat", "a", "b", "a"] envFail).2.log) :=
  main_transfer_failure envFail ["altcat", "a", "b", "a"] ["a"] ["a"] "b" 5 rfl (by decide)
    (by decide) (by decide) (Or.inr ⟨rfl, rfl⟩)

/-- C9, as amended.  In every run of `main`: the descriptors returned by
`open` are distinct; `splice` is called on a leading part of them, in
command-line order, each at most once; `sendfile` is called only on
descriptors `splice` was called on, in the same order; `close` is called on a
leading part of those; every transfer call that moved bytes is directly
followed by the `close` of its input descriptor, before any call on the next
input; no descriptor is passed to `fstat`, `splice`, `sendfile` or `close`
after it was closed; and when `main` returns `EXIT_SUCCESS`, no input
descriptor is still open. -/
theorem main_descriptor_lifecycle (env : Env) (argv : List String) :
    (openedFds (main argv env).2.log).Nodup ∧
    spliceFds (main argv env).2.log <+: openedFds (main argv env).2.log ∧
    (sendfileFds (main argv env).2.log).Sublist (spliceFds (main argv env).2.log) ∧
    closeFds (main argv env).2.log <+: spliceFds (main argv env).2.log ∧
    closedAtOnce (main argv env).2.log = true ∧
    noUseAfterClose (main argv env).2.log = true ∧
    ((main argv env).1 = EXIT_SUCCESS → (main argv env).2.fdt = []) := by
  obtain ⟨quiet, es, hlog, hquiet, hnd, hpre, hret⟩ := main_shape env argv
  have hq : ∀ e ∈ quiet, e.spliceFd = none ∧ e.sendfileFd = none ∧ e.closeFd = none ∧
      e.movedFd = none := by
    intro e he
    rcases hquiet e he with h | h
    · have := setup_quiet e h
      exact ⟨this.2.2.2.2.2.1, this.2.2.2.2.2.2.1, this.2.2.2.2.2.2.2.1, this.2.2.2.2.2.2.2.2.1⟩
    · have := open_quiet e h
      exact ⟨this.2.2.2.1, this.2.2.2.2.1, this.2.2.2.2.2.1, this.2.2.2.2.2.2.1⟩
  have ho : openedFds (main argv env).2.log = openedFds quiet := by
    have h2 := runLog_openedFds env es
    simp only [openedFds] at h2
    rw [hlog]
    simp only [openedFds, List.filterMap_append, h2, List.append_nil]
  have hsp : spliceFds (main argv env).2.log = (es.map Prod.fst).take (runCount env es) := by
    rw [hlog, ← runLog_spliceFds]
    simp only [spliceFds, List.filterMap_append,
      filterMap_none _ _ (fun e he => (hq e he).1), List.nil_append]
  have hsf : sendfileFds (main argv env).2.log = sendfileFds (runLog env es) := by
    rw [hlog]
    simp only [sendfileFds, List.filterMap_append,
      filterMap_none _ _ (fun e he => (hq e he).2.1), List.nil_append]
  have hcl : closeFds (main argv env).2.log = (es.map Prod.fst).take (doneCount env es) := by
    rw [hlog, ← runLog_closeFds]
    simp only [closeFds, List.filterMap_append,
      filterMap_none _ _ (fun e he => (hq e he).2.2.1), List.nil_append]
  refine ⟨by rw [ho]; exact hnd, ?_, ?_, ?_, ?_, ?_, hret⟩
  · rw [ho, hsp]
    exact (List.take_prefix _ _).trans hpre
  · rw [hsf, hsp, ← runLog_spliceFds]
    exact runLog_sendfileFds env es
  · rw [hcl, hsp]
    exact List.take_prefix_take_left _ (runRet_cases env es).2.2
  · rw [hlog, closedAtOnce_append_quiet quiet _ (fun e he => (hq e he).2.2.2)]
    exact runLog_closedAtOnce env es
  · rw [hlog, noUseAfterClose_append_quiet quiet _ (fun e he => (hq e he).2.2.1)]
    exact runLog_noUseAfterClose env es (hpre.sublist.nodup hnd)

/-- Witness of `main_descriptor_lifecycle`: a run that returns
`EXIT_SUCCESS` and leaves no input descriptor open. -/
theorem main_descriptor_lifecycle_witness :
    (main ["altcat", "a", "b"] envRegular).1 = EXIT_SUCCESS ∧
    (main ["altcat", "a", "b"] envRegular).2.fdt = [] :=
  ⟨by decide,
    (main_descriptor_lifecycle envRegular ["altcat", "a", "b"]).2.2.2.2.2.2 (by decide)⟩

/-- C9 fails as stated: when the second file cannot be opened, `main`
returns with the descriptor of the first file, 3, opened, never transferred,
never closed, and still open. -/
theorem main_leaves_descriptor_open :
    openedFds (main ["altcat", "a", "zz"] envFull).2.log = [3] ∧
    closeFds (main ["altcat", "a", "zz"] envFull).2.log = [] ∧
    (main ["altcat", "a", "zz"] envFull).1 = EXIT_FAILURE ∧
    (main ["altcat", "a", "zz"] envFull).2.fdt.map Prod.fst = [3] ∧
    (main ["altcat", "a", "zz"] envFull).2.fdt ≠ [] := by
  decide

end Altcat
